import Mathlib

/-!
Verification of the todo-app task storage/validation engine.

The Python sources are shallowly embedded:
* `src/models/task.py` → `Todo.Task`, `Todo.mkTask` (the dataclass plus the
  uppercasing `__post_init__`), `Todo.Task.format_created_at`;
* `src/services/task_service.py` → `Todo.TaskService.*` operating on
  `Todo.Store`; the Python dict keyed by id is modelled as an association
  list in insertion order, in-place mutation of a stored `Task` as
  positional replacement, and `self._save()` as a `Bool` in the result
  telling whether a persistence write happened.  Each mutating method
  returns `(result, post-state, saved)` so that states after a raised
  exception are also visible, exactly as in Python where the service
  object survives the exception.
* Persistence is modelled at the structure level: `Todo.FileData` is the
  JSON document written by `_save` with `Option` fields for the keys whose
  absence `_load` handles via `dict.get` (defaulted) or `[...]`-indexing
  (`KeyError`, caught).  `none` at the top level models content that does
  not parse (`json.JSONDecodeError`, caught).  Timestamps are stored
  parsed; `truncMicro` models `strftime("%Y-%m-%dT%H:%M:%S")` followed by
  `datetime.fromisoformat`, which zeroes the microsecond component.
* `src/lib/validators.py`, `src/lib/id_generator.py` and
  `src/lib/exceptions.py` are imported by the service but are not part of
  the sources; they are modelled from the spec (sections 4.1, 4.2, 7) and
  cross-checked against their unit tests, as marked on each definition.
-/

namespace Todo

/-- Timestamp at the granularity Python's `datetime` carries (no timezone,
microsecond resolution).  `datetime.now()` produces values with arbitrary
`micro`. -/
structure Timestamp where
  year : Nat
  month : Nat
  day : Nat
  hour : Nat
  minute : Nat
  second : Nat
  micro : Nat
deriving DecidableEq, Repr

/-- Effect of rendering a timestamp with `strftime("%Y-%m-%dT%H:%M:%S")`
and re-parsing it with `datetime.fromisoformat`: all fields survive except
the microseconds, which the format string omits. -/
def truncMicro (t : Timestamp) : Timestamp :=
  { t with micro := 0 }

/-- Modelled from the spec: the error taxonomy of `src/lib/exceptions.py`
(spec section 7); `TaskNotFound` carries the offending id. -/
inductive Err where
  | EmptyTitle
  | TitleTooLong
  | DescriptionTooLong
  | InvalidIDFormat
  | TaskNotFound (task_id : String)
  | NoChangesSpecified
deriving DecidableEq, Repr

/-- ASCII model of Python's `str.upper` on one character: the 26 lowercase
ASCII letters map to their uppercase forms, everything else is unchanged. -/
def pyUpperChar (c : Char) : Char :=
  match c with
  | 'a' => 'A' | 'b' => 'B' | 'c' => 'C' | 'd' => 'D' | 'e' => 'E'
  | 'f' => 'F' | 'g' => 'G' | 'h' => 'H' | 'i' => 'I' | 'j' => 'J'
  | 'k' => 'K' | 'l' => 'L' | 'm' => 'M' | 'n' => 'N' | 'o' => 'O'
  | 'p' => 'P' | 'q' => 'Q' | 'r' => 'R' | 's' => 'S' | 't' => 'T'
  | 'u' => 'U' | 'v' => 'V' | 'w' => 'W' | 'x' => 'X' | 'y' => 'Y'
  | 'z' => 'Z'
  | other => other

/-- Model of Python's `str.upper` (ASCII range). -/
def strUpper (s : String) : String :=
  String.mk (s.data.map pyUpperChar)

/-- Drop trailing whitespace from a character list. -/
def stripRight : List Char → List Char
  | [] => []
  | c :: cs =>
    match stripRight cs with
    | [] => if c.isWhitespace then [] else [c]
    | r => c :: r

/-- Model of Python's `str.strip()`: remove leading and trailing
whitespace. -/
def pyStrip (s : String) : String :=
  String.mk (stripRight (s.data.dropWhile Char.isWhitespace))

/-- Modelled from the spec: `MAX_TITLE_LENGTH` of the missing
`src/lib/validators.py` (spec section 4.1, unit tests in
`tests/unit/test_validators.py`). -/
def MAX_TITLE_LENGTH : Nat := 200

/-- Modelled from the spec: `MAX_DESCRIPTION_LENGTH` of the missing
`src/lib/validators.py`. -/
def MAX_DESCRIPTION_LENGTH : Nat := 1000

/-- Modelled from the spec: `validate_title` of the missing
`src/lib/validators.py` — trims surrounding whitespace, rejects an empty
trim with `EmptyTitle` and a trimmed length above 200 with
`TitleTooLong`, otherwise returns the trimmed string. -/
def validate_title (raw : String) : Except Err String :=
  if (pyStrip raw).length = 0 then .error .EmptyTitle
  else if MAX_TITLE_LENGTH < (pyStrip raw).length then .error .TitleTooLong
  else .ok (pyStrip raw)

/-- Modelled from the spec: `validate_description` of the missing
`src/lib/validators.py` — no trimming, rejects length above 1000 with
`DescriptionTooLong`, otherwise returns the input unchanged. -/
def validate_description (raw : String) : Except Err String :=
  if MAX_DESCRIPTION_LENGTH < raw.length then .error .DescriptionTooLong
  else .ok raw

/-- Modelled from the spec: the shape test of `validate_task_id` — after
uppercasing, the string must be the letter `T` followed by one or more
ASCII digits. -/
def isValidTaskId (s : String) : Bool :=
  match (strUpper s).data with
  | c :: rest => c = 'T' && !rest.isEmpty && rest.all Char.isDigit
  | [] => false

/-- Modelled from the spec: `validate_task_id` of the missing
`src/lib/validators.py` — fails with `InvalidIDFormat` unless the input,
case-insensitively, is `T` followed by one or more ASCII digits; on
success returns the uppercased canonical form. -/
def validate_task_id (raw : String) : Except Err String :=
  if isValidTaskId raw then .ok (strUpper raw) else .error .InvalidIDFormat

/-- Decimal digit character, as produced by Python's `%d`/`str`
formatting of the digit `n % 10`. -/
def digitChar : Nat → Char
  | 0 => '0' | 1 => '1' | 2 => '2' | 3 => '3' | 4 => '4'
  | 5 => '5' | 6 => '6' | 7 => '7' | 8 => '8' | _ => '9'

/-- Fuel-driven decimal rendering (the fuel makes the recursion
structural; `n + 1` units always suffice). -/
def digitsAux : Nat → Nat → List Char → List Char
  | 0, _, acc => acc
  | fuel + 1, n, acc =>
    if n < 10 then digitChar n :: acc
    else digitsAux fuel (n / 10) (digitChar (n % 10) :: acc)

/-- Decimal digits of `n`, most significant first. -/
def natDigits (n : Nat) : List Char :=
  digitsAux (n + 1) n []

/-- Digits of `n` left-padded with `'0'` to at least three characters:
the character content of Python's `f"{n:03d}"`. -/
def pad3Digits (n : Nat) : List Char :=
  List.replicate (3 - (natDigits n).length) '0' ++ natDigits n

/-- Modelled from the spec: the id produced for counter value `n` by the
missing `src/lib/id_generator.py` — `T` plus the counter zero-padded to
at least 3 digits, no truncation (spec section 4.2). -/
def formatId (n : Nat) : String :=
  String.mk ('T' :: pad3Digits n)

/-- Numeric value of a digit character. -/
def digitVal (c : Char) : Nat := c.toNat - 48

/-- Numeric value of a digit string, most significant first. -/
def digitsVal (l : List Char) : Nat :=
  l.foldl (fun a c => a * 10 + digitVal c) 0

/-- Numeric value of a task id `T…digits…` (used only to state the
numeric-order reading of claims, never by the code model). -/
def idNum (s : String) : Nat := digitsVal (s.data.drop 1)

/-- The Task dataclass of `src/models/task.py`. -/
structure Task where
  id : String
  title : String
  description : String
  completed : Bool
  created_at : Timestamp
deriving DecidableEq, Repr

/-- `Task.__init__` followed by `__post_init__`, which uppercases the
id. -/
def mkTask (id title description : String) (completed : Bool)
    (created_at : Timestamp) : Task :=
  ⟨strUpper id, title, description, completed, created_at⟩

/-- In-memory state of `TaskService`: the `_tasks` dict as an association
list in insertion order plus the `IDGenerator` counter (modelled from the
spec for the missing `src/lib/id_generator.py`: a bare monotonic
counter starting at 0). -/
structure Store where
  tasks : List (String × Task)
  counter : Nat
deriving DecidableEq, Repr

/-- Fresh service state: no tasks, counter 0. -/
def emptyStore : Store := ⟨[], 0⟩

/-- `self._tasks[key] = task` on a dict: replace in place when the key is
present, otherwise append. -/
def assocSet (l : List (String × Task)) (key : String) (t : Task) :
    List (String × Task) :=
  if l.any (fun p => p.1 = key) then
    l.map (fun p => if p.1 = key then (key, t) else p)
  else l ++ [(key, t)]

/-- Mutating the `Task` object stored under `key` in place (dict position
unchanged). -/
def replaceTask (l : List (String × Task)) (key : String) (t : Task) :
    List (String × Task) :=
  l.map (fun p => if p.1 = key then (p.1, t) else p)

/-- Dict lookup: `self._tasks[key]` / `key in self._tasks`. -/
def assocLookup (l : List (String × Task)) (k : String) : Option Task :=
  match l with
  | [] => none
  | (k', v) :: es => if k' = k then some v else assocLookup es k

instance {ε α : Type} [DecidableEq ε] [DecidableEq α] :
    DecidableEq (Except ε α) := fun a b =>
  match a, b with
  | .ok x, .ok y =>
    if h : x = y then .isTrue (by rw [h]) else .isFalse (by simp [h])
  | .error e, .error f =>
    if h : e = f then .isTrue (by rw [h]) else .isFalse (by simp [h])
  | .ok _, .error _ => .isFalse (by simp)
  | .error _, .ok _ => .isFalse (by simp)

/-- `True` for `Except.ok`, mirroring "the method returned rather than
raised". -/
def exOk : Except Err α → Bool
  | .ok _ => true
  | .error _ => false

/-- `TaskService.get` with the canonical key alongside the task: validate
the id, then look up `self._tasks`; raises `TaskNotFoundError` when
absent.  `get` itself never mutates and never saves. -/
def getEntry (s : Store) (task_id : String) : Except Err (String × Task) :=
  match validate_task_id task_id with
  | .error e => .error e
  | .ok tid =>
    match assocLookup s.tasks tid with
    | none => .error (.TaskNotFound tid)
    | some t => .ok (tid, t)

/-- `TaskService.get` of `src/services/task_service.py`. -/
def TaskService.get (s : Store) (task_id : String) : Except Err Task :=
  match getEntry s task_id with
  | .error e => .error e
  | .ok p => .ok p.2

/-- `TaskService.add`: validate title then description, draw the next id
from the generator (counter + 1), construct the task (`completed=False`,
`created_at=datetime.now()`, passed here as `now`), store it under the
generated id and save.  Validation failures leave state untouched and
skip the save. -/
def TaskService.add (s : Store) (title description : String)
    (now : Timestamp) : Except Err Task × Store × Bool :=
  match validate_title title with
  | .error e => (.error e, s, false)
  | .ok t =>
    match validate_description description with
    | .error e => (.error e, s, false)
    | .ok d =>
      let c := s.counter + 1
      let task_id := formatId c
      let task := mkTask task_id t d false now
      (.ok task, ⟨assocSet s.tasks task_id task, c⟩, true)

/-- `TaskService.update`: reject when both fields are `None`; fetch via
`get`; then `task.title = validate_title(title)` when a title is given —
an in-place mutation of the stored object — followed by
`task.description = validate_description(description)` when a
description is given, and a save.  Note that a description failure
happens after the title has already been written to the stored task. -/
def TaskService.update (s : Store) (task_id : String)
    (title description : Option String) :
    Except Err Task × Store × Bool :=
  match title, description with
  | none, none => (.error .NoChangesSpecified, s, false)
  | _, _ =>
    match getEntry s task_id with
    | .error e => (.error e, s, false)
    | .ok (tid, task) =>
      match title with
      | some t0 =>
        match validate_title t0 with
        | .error e => (.error e, s, false)
        | .ok t1 =>
          let task1 : Task := { task with title := t1 }
          let s1 : Store := ⟨replaceTask s.tasks tid task1, s.counter⟩
          match description with
          | some d0 =>
            match validate_description d0 with
            | .error e => (.error e, s1, false)
            | .ok d1 =>
              let task2 : Task := { task1 with description := d1 }
              (.ok task2, ⟨replaceTask s.tasks tid task2, s.counter⟩, true)
          | none => (.ok task1, s1, true)
      | none =>
        match description with
        | some d0 =>
          match validate_description d0 with
          | .error e => (.error e, s, false)
          | .ok d1 =>
            let task1 : Task := { task with description := d1 }
            (.ok task1, ⟨replaceTask s.tasks tid task1, s.counter⟩, true)
        | none => (.error .NoChangesSpecified, s, false)

/-- `TaskService.delete`: validate the id, check membership, `dict.pop`
the entry (first occurrence of the key), save, and return the removed
task. -/
def TaskService.delete (s : Store) (task_id : String) :
    Except Err Task × Store × Bool :=
  match validate_task_id task_id with
  | .error e => (.error e, s, false)
  | .ok tid =>
    match assocLookup s.tasks tid with
    | none => (.error (.TaskNotFound tid), s, false)
    | some t =>
      (.ok t, ⟨s.tasks.eraseP (fun p => decide (p.1 = tid)), s.counter⟩, true)

/-- `TaskService.mark_complete`: fetch; when already completed return
`(task, False)` without mutating or saving; otherwise set
`task.completed = True` in place, save, return `(task, True)`. -/
def TaskService.mark_complete (s : Store) (task_id : String) :
    Except Err (Task × Bool) × Store × Bool :=
  match getEntry s task_id with
  | .error e => (.error e, s, false)
  | .ok (tid, task) =>
    if task.completed then (.ok (task, false), s, false)
    else
      let task' : Task := { task with completed := true }
      (.ok (task', true), ⟨replaceTask s.tasks tid task', s.counter⟩, true)

/-- `TaskService.mark_incomplete`, symmetric to `mark_complete`. -/
def TaskService.mark_incomplete (s : Store) (task_id : String) :
    Except Err (Task × Bool) × Store × Bool :=
  match getEntry s task_id with
  | .error e => (.error e, s, false)
  | .ok (tid, task) =>
    if task.completed then
      let task' : Task := { task with completed := false }
      (.ok (task', true), ⟨replaceTask s.tasks tid task', s.counter⟩, true)
    else (.ok (task, false), s, false)

/-- Python's `≤` on strings, on the underlying character lists:
lexicographic by code point, a proper prefix sorting first. -/
def listLeb : List Char → List Char → Bool
  | [], _ => true
  | _ :: _, [] => false
  | c :: cs, d :: ds =>
    if c = d then listLeb cs ds else decide (c.toNat < d.toNat)

/-- Python's string comparison applied to task ids, as used by
`sorted(..., key=lambda t: t.id)`. -/
def idLe (a b : Task) : Prop := listLeb a.id.data b.id.data = true

instance : DecidableRel idLe := fun a b =>
  inferInstanceAs (Decidable (listLeb a.id.data b.id.data = true))

theorem charToNat_inj {c d : Char} (h : c.toNat = d.toNat) : c = d :=
  Char.ext (UInt32.ext h)

theorem listLeb_total : ∀ a b : List Char,
    listLeb a b = true ∨ listLeb b a = true
  | [], _ => Or.inl rfl
  | _ :: _, [] => Or.inr rfl
  | c :: cs, d :: ds => by
    by_cases hcd : c = d
    · subst hcd
      simpa [listLeb] using listLeb_total cs ds
    · have hiff : ¬c.toNat = d.toNat := fun h => hcd (charToNat_inj h)
      rcases Nat.lt_or_ge c.toNat d.toNat with h | h
      · exact Or.inl (by simp [listLeb, hcd, h])
      · have hdc : d.toNat < c.toNat := lt_of_le_of_ne h (by omega)
        exact Or.inr (by simp [listLeb, Ne.symm hcd, hdc])

theorem listLeb_trans : ∀ a b c : List Char,
    listLeb a b = true → listLeb b c = true → listLeb a c = true
  | [], _, _, _, _ => rfl
  | _ :: _, [], _, h1, _ => by simp [listLeb] at h1
  | _ :: _, _ :: _, [], _, h2 => by simp [listLeb] at h2
  | x :: xs, y :: ys, z :: zs, h1, h2 => by
    by_cases hxy : x = y <;> by_cases hyz : y = z
    · subst hxy; subst hyz
      simp only [listLeb, if_pos rfl] at h1 h2 ⊢
      exact listLeb_trans xs ys zs h1 h2
    · subst hxy
      simpa [listLeb, hyz] using h2
    · subst hyz
      simpa [listLeb, hxy] using h1
    · simp only [listLeb, if_neg hxy, decide_eq_true_eq] at h1
      simp only [listLeb, if_neg hyz, decide_eq_true_eq] at h2
      have hxz : x.toNat < z.toNat := lt_trans h1 h2
      have : ¬x = z := fun h => by subst h; exact lt_irrefl _ hxz
      simp [listLeb, this, hxz]

instance : IsTotal Task idLe := ⟨fun a b => listLeb_total a.id.data b.id.data⟩

instance : IsTrans Task idLe :=
  ⟨fun _ _ _ h1 h2 => listLeb_trans _ _ _ h1 h2⟩

/-- `TaskService.list_all`:
`sorted(self._tasks.values(), key=lambda t: t.id)` — a stable sort of the
dict's values by the id string. -/
def TaskService.list_all (s : Store) : List Task :=
  List.insertionSort idLe (s.tasks.map Prod.snd)

/-- `TaskService.list_pending`: the incomplete tasks of `list_all`, in
that order. -/
def TaskService.list_pending (s : Store) : List Task :=
  (TaskService.list_all s).filter (fun t => !t.completed)

/-- `TaskService.list_completed`: the completed tasks of `list_all`, in
that order. -/
def TaskService.list_completed (s : Store) : List Task :=
  (TaskService.list_all s).filter (fun t => t.completed)

/-- `TaskService.count`: `len(self._tasks)`. -/
def TaskService.count (s : Store) : Nat := s.tasks.length

/-- One task object of the persisted JSON document.  Each field is
`Option`al because `_load` reads `id`, `title` and `created_at` with
`task_data[...]` (a missing key raises `KeyError`) and `description`,
`completed` with `task_data.get(..., default)`.  The `created_at` value
stands for the parsed form of the stored timestamp string. -/
structure TaskRecord where
  id : Option String
  title : Option String
  description : Option String
  completed : Option Bool
  created_at : Option Timestamp
deriving DecidableEq, Repr

/-- The persisted JSON document: `data.get("tasks", [])` and
`data.get("next_id_counter", 0)` default missing keys. -/
structure FileData where
  next_id_counter : Option Nat
  tasks : Option (List TaskRecord)
deriving DecidableEq, Repr

/-- The record `_save` writes for one task: every field spelled out, the
timestamp rendered at second granularity (hence `truncMicro`, the parsed
reading of `format_created_at`). -/
def taskToRecord (t : Task) : TaskRecord :=
  ⟨some t.id, some t.title, some t.description, some t.completed,
    some (truncMicro t.created_at)⟩

/-- `TaskService._save`: the full snapshot — counter plus every stored
task in dict order. -/
def saveStore (s : Store) : FileData :=
  ⟨some s.counter, some (s.tasks.map (fun p => taskToRecord p.2))⟩

/-- Reconstruction of one task inside `_load`'s loop:
`Task(id=..., title=..., description=..., completed=..., created_at=...)`
with `KeyError` (modelled as `Except.error ()`) on a missing required
field. -/
def loadRecord (r : TaskRecord) : Except Unit Task :=
  match r.id with
  | none => .error ()
  | some i =>
    match r.title with
    | none => .error ()
    | some t =>
      match r.created_at with
      | none => .error ()
      | some ts =>
        .ok (mkTask i t (r.description.getD "") (r.completed.getD false) ts)

/-- Whether a record survives `_load`'s reconstruction. -/
def recOk (r : TaskRecord) : Bool :=
  match loadRecord r with
  | .ok _ => true
  | .error _ => false

/-- `_load`'s loop over `data.get("tasks", [])`: each reconstructed task
is stored with `self._tasks[task.id] = task`; the first `KeyError`
aborts the whole `try` block (returning `false`), keeping the tasks
stored so far. -/
def loadTasks : List TaskRecord → List (String × Task) →
    List (String × Task) × Bool
  | [], acc => (acc, true)
  | r :: rs, acc =>
    match loadRecord r with
    | .error _ => (acc, false)
    | .ok task => loadTasks rs (assocSet acc task.id task)

/-- `TaskService.__init__` + `_load` on given file content: `none` is an
absent or unparseable file (both give the fresh state); otherwise the
task loop runs and, only if it completes, the counter is restored from
`data.get("next_id_counter", 0)` — an aborted loop leaves the counter at
its initial 0 and the already-stored tasks in place. -/
def loadStore (content : Option FileData) : Store :=
  match content with
  | none => emptyStore
  | some data =>
    match loadTasks (data.tasks.getD []) [] with
    | (tasks, true) => ⟨tasks, data.next_id_counter.getD 0⟩
    | (tasks, false) => ⟨tasks, 0⟩

/-- One presentation-layer call into the mutating part of the service
(timestamps that Python would take from `datetime.now()` are explicit
inputs). -/
inductive Op where
  | add (title description : String) (now : Timestamp)
  | update (task_id : String) (title description : Option String)
  | delete (task_id : String)
  | mark_complete (task_id : String)
  | mark_incomplete (task_id : String)

/-- Run one operation; the `Option String` is the id handed out when the
operation was a successful `add`. -/
def applyOp (s : Store) : Op → Store × Option String
  | .add t d now =>
    match TaskService.add s t d now with
    | (.ok task, s', _) => (s', some task.id)
    | (.error _, s', _) => (s', none)
  | .update tid t d => ((TaskService.update s tid t d).2.1, none)
  | .delete tid => ((TaskService.delete s tid).2.1, none)
  | .mark_complete tid => ((TaskService.mark_complete s tid).2.1, none)
  | .mark_incomplete tid => ((TaskService.mark_incomplete s tid).2.1, none)

/-- Run a call sequence, collecting the ids assigned by successful
`add`s in order. -/
def runOps : Store → List Op → Store × List String
  | s, [] => (s, [])
  | s, op :: ops =>
    match applyOp s op with
    | (s', none) => runOps s' ops
    | (s', some i) =>
      let r := runOps s' ops
      (r.1, i :: r.2)

/-! ### Decimal-rendering lemmas -/

theorem digitVal_digitChar : ∀ k, k < 10 → digitVal (digitChar k) = k := by
  decide

theorem pyUpperChar_digitChar : ∀ k, pyUpperChar (digitChar k) = digitChar k := by
  intro k
  rcases k with _|_|_|_|_|_|_|_|_|_ <;> rfl

theorem digitsVal_digitsAux : ∀ (fuel n : Nat) (acc : List Char),
    n < 10 ^ fuel →
    (digitsAux fuel n acc).foldl (fun a c => a * 10 + digitVal c) 0 =
      acc.foldl (fun a c => a * 10 + digitVal c) n
  | 0, n, acc, h => by
    have hn : n = 0 := by
      simpa using Nat.lt_one_iff.mp (by simpa using h)
    subst hn
    rfl
  | fuel + 1, n, acc, h => by
    by_cases h10 : n < 10
    · simp only [digitsAux, if_pos h10, List.foldl_cons, Nat.zero_mul,
        Nat.zero_add, digitVal_digitChar n h10]
    · have hdiv : n / 10 < 10 ^ fuel := by
        rw [Nat.div_lt_iff_lt_mul (by norm_num)]
        calc n < 10 ^ (fuel + 1) := h
          _ = 10 ^ fuel * 10 := by ring
      simp only [digitsAux, if_neg h10]
      rw [digitsVal_digitsAux fuel (n / 10) _ hdiv]
      simp only [List.foldl_cons,
        digitVal_digitChar (n % 10) (Nat.mod_lt n (by norm_num))]
      congr 1
      omega

theorem digitsVal_natDigits (n : Nat) : digitsVal (natDigits n) = n := by
  have h : n < 10 ^ (n + 1) :=
    lt_of_lt_of_le (Nat.lt_pow_self (by norm_num) n)
      (Nat.pow_le_pow_right (by norm_num) (Nat.le_succ n))
  simpa [digitsVal, natDigits] using digitsVal_digitsAux (n + 1) n [] h

theorem digitsVal_pad3Digits (n : Nat) : digitsVal (pad3Digits n) = n := by
  have hzero : ∀ (k : Nat) (l : List Char),
      (List.replicate k '0' ++ l).foldl (fun a c => a * 10 + digitVal c) 0 =
        l.foldl (fun a c => a * 10 + digitVal c) 0 := by
    intro k
    induction k with
    | zero => intro l; rfl
    | succ k ih => intro l; simpa [List.replicate_succ] using ih l
  have := digitsVal_natDigits n
  simpa [pad3Digits, digitsVal, hzero] using this

theorem idNum_formatId (n : Nat) : idNum (formatId n) = n := by
  simpa [idNum, formatId] using digitsVal_pad3Digits n

theorem formatId_inj {m n : Nat} (h : formatId m = formatId n) : m = n := by
  have := congrArg idNum h
  rwa [idNum_formatId, idNum_formatId] at this

theorem map_id_of_mem {f : Char → Char} :
    ∀ l : List Char, (∀ c ∈ l, f c = c) → l.map f = l
  | [], _ => rfl
  | c :: cs, h => by
    simp only [List.map_cons, h c (List.mem_cons_self c cs),
      map_id_of_mem cs (fun d hd => h d (List.mem_cons_of_mem c hd)), List.cons.injEq,
      and_self]

theorem digitsAux_mem {P : Char → Prop} (hP : ∀ k, P (digitChar k)) :
    ∀ (fuel n : Nat) (acc : List Char), (∀ c ∈ acc, P c) →
      ∀ c ∈ digitsAux fuel n acc, P c
  | 0, _, _, hacc => hacc
  | fuel + 1, n, acc, hacc => by
    by_cases h10 : n < 10
    · simp only [digitsAux, if_pos h10]
      intro c hc
      rcases List.mem_cons.mp hc with h | h
      · subst h; exact hP n
      · exact hacc c h
    · simp only [digitsAux, if_neg h10]
      refine digitsAux_mem hP fuel (n / 10) _ ?_
      intro c hc
      rcases List.mem_cons.mp hc with h | h
      · subst h; exact hP (n % 10)
      · exact hacc c h

/-! ### Association-list lemmas -/

theorem assocLookup_cons (k' : String) (v : Task) (es : List (String × Task))
    (k : String) :
    assocLookup ((k', v) :: es) k = if k' = k then some v else assocLookup es k :=
  rfl

theorem mem_of_lookup {k : String} {t : Task} :
    ∀ {l : List (String × Task)}, assocLookup l k = some t → (k, t) ∈ l := by
  intro l
  induction l with
  | nil => intro h; simp [assocLookup] at h
  | cons p es ih =>
    intro h
    rcases p with ⟨k', v⟩
    rw [assocLookup_cons] at h
    by_cases hk : k' = k
    · rw [if_pos hk] at h
      subst hk
      obtain rfl : v = t := Option.some_inj.mp h
      exact List.mem_cons_self _ _
    · rw [if_neg hk] at h
      exact List.mem_cons_of_mem _ (ih h)

theorem lookup_eq_none_of_not_mem {k : String} :
    ∀ {l : List (String × Task)}, (∀ p ∈ l, p.1 ≠ k) → assocLookup l k = none := by
  intro l
  induction l with
  | nil => intro _; rfl
  | cons p es ih =>
    intro h
    rcases p with ⟨k', v⟩
    rw [assocLookup_cons, if_neg (h (k', v) (List.mem_cons_self _ _))]
    exact ih fun q hq => h q (List.mem_cons_of_mem _ hq)

theorem lookup_isSome_of_any {k : String} :
    ∀ {l : List (String × Task)}, l.any (fun p => p.1 = k) = true →
      ∃ v, assocLookup l k = some v := by
  intro l
  induction l with
  | nil => intro h; simp at h
  | cons p es ih =>
    intro h
    rcases p with ⟨k', v⟩
    by_cases hk : k' = k
    · exact ⟨v, by rw [assocLookup_cons, if_pos hk]⟩
    · simp only [List.any_cons, Bool.or_eq_true_iff] at h
      rcases h with h | h
      · exact absurd (by simpa using h) hk
      · rcases ih h with ⟨w, hw⟩
        exact ⟨w, by rw [assocLookup_cons, if_neg hk]; exact hw⟩

theorem any_of_lookup_isSome {k : String} {v : Task} :
    ∀ {l : List (String × Task)}, assocLookup l k = some v →
      l.any (fun p => p.1 = k) = true := by
  intro l
  induction l with
  | nil => intro h; simp [assocLookup] at h
  | cons p es ih =>
    intro h
    rcases p with ⟨k', w⟩
    by_cases hk : k' = k
    · simp [hk]
    · rw [assocLookup_cons, if_neg hk] at h
      simp [List.any_cons, ih h]

theorem lookup_append_self (k : String) (t : Task) :
    ∀ l : List (String × Task), (∀ p ∈ l, p.1 ≠ k) →
      assocLookup (l ++ [(k, t)]) k = some t := by
  intro l
  induction l with
  | nil => intro _; rw [List.nil_append, assocLookup_cons, if_pos rfl]
  | cons p es ih =>
    intro h
    rcases p with ⟨k', v⟩
    rw [List.cons_append, assocLookup_cons,
      if_neg (h (k', v) (List.mem_cons_self _ _))]
    exact ih fun q hq => h q (List.mem_cons_of_mem _ hq)

theorem lookup_append_ne {k' k : String} (hne : k' ≠ k) (t : Task) :
    ∀ l : List (String × Task),
      assocLookup (l ++ [(k, t)]) k' = assocLookup l k' := by
  intro l
  induction l with
  | nil =>
    rw [List.nil_append, assocLookup_cons, if_neg (fun h => hne h.symm)]
  | cons p es ih =>
    rcases p with ⟨k₀, v⟩
    rw [List.cons_append, assocLookup_cons, assocLookup_cons]
    by_cases hk : k₀ = k'
    · rw [if_pos hk, if_pos hk]
    · rw [if_neg hk, if_neg hk]
      exact ih

theorem lookup_mapSet_self (k : String) (t : Task) :
    ∀ l : List (String × Task), l.any (fun p => p.1 = k) = true →
      assocLookup (l.map (fun p => if p.1 = k then (k, t) else p)) k = some t := by
  intro l
  induction l with
  | nil => intro h; simp at h
  | cons p es ih =>
    intro hany
    rcases p with ⟨k', v⟩
    rw [List.map_cons]
    by_cases hk : k' = k
    · rw [if_pos (show (k', v).1 = k from hk), assocLookup_cons, if_pos rfl]
    · rw [if_neg (show ¬(k', v).1 = k from hk), assocLookup_cons, if_neg hk]
      apply ih
      simp only [List.any_cons, Bool.or_eq_true_iff] at hany
      rcases hany with h | h
      · exact absurd (by simpa using h) hk
      · exact h

theorem lookup_mapSet_ne {k' k : String} (hne : k' ≠ k) (t : Task) :
    ∀ l : List (String × Task),
      assocLookup (l.map (fun p => if p.1 = k then (k, t) else p)) k' =
        assocLookup l k' := by
  intro l
  induction l with
  | nil => rfl
  | cons p es ih =>
    rcases p with ⟨k₀, v⟩
    rw [List.map_cons]
    by_cases hk : k₀ = k
    · subst hk
      rw [if_pos (show (k₀, v).1 = k₀ from rfl), assocLookup_cons,
        if_neg (fun h => hne h.symm), assocLookup_cons,
        if_neg (fun h => hne h.symm)]
      exact ih
    · rw [if_neg (show ¬(k₀, v).1 = k from hk), assocLookup_cons,
        assocLookup_cons]
      by_cases hk' : k₀ = k'
      · rw [if_pos hk', if_pos hk']
      · rw [if_neg hk', if_neg hk']
        exact ih

theorem lookup_assocSet_self (l : List (String × Task)) (k : String) (t : Task) :
    assocLookup (assocSet l k t) k = some t := by
  unfold assocSet
  split
  · rename_i hany
    exact lookup_mapSet_self k t l hany
  · rename_i hany
    refine lookup_append_self k t l ?_
    intro p hp h
    exact hany (List.any_eq_true.mpr ⟨p, hp, by simpa using h⟩)

theorem lookup_assocSet_ne {k' k : String} (hne : k' ≠ k)
    (l : List (String × Task)) (t : Task) :
    assocLookup (assocSet l k t) k' = assocLookup l k' := by
  unfold assocSet
  split
  · exact lookup_mapSet_ne hne t l
  · exact lookup_append_ne hne t l

theorem lookup_replaceTask_ne {k' k : String} (hne : k' ≠ k)
    (l : List (String × Task)) (t : Task) :
    assocLookup (replaceTask l k t) k' = assocLookup l k' := by
  unfold replaceTask
  induction l with
  | nil => rfl
  | cons p es ih =>
    rcases p with ⟨k₀, v⟩
    rw [List.map_cons]
    by_cases hk : k₀ = k
    · subst hk
      rw [if_pos (show (k₀, v).1 = k₀ from rfl), assocLookup_cons,
        assocLookup_cons]
      by_cases hk' : k₀ = k'
      · exact absurd hk'.symm hne
      · rw [if_neg hk', if_neg hk']
        exact ih
    · rw [if_neg (show ¬(k₀, v).1 = k from hk), assocLookup_cons,
        assocLookup_cons]
      by_cases hk' : k₀ = k'
      · rw [if_pos hk', if_pos hk']
      · rw [if_neg hk', if_neg hk']
        exact ih

theorem lookup_replaceTask_self {k : String} {v : Task}
    (l : List (String × Task)) (t : Task) (h : assocLookup l k = some v) :
    assocLookup (replaceTask l k t) k = some t := by
  unfold replaceTask
  induction l with
  | nil => simp [assocLookup] at h
  | cons p es ih =>
    rcases p with ⟨k₀, w⟩
    rw [List.map_cons]
    by_cases hk : k₀ = k
    · subst hk
      rw [if_pos (show (k₀, w).1 = k₀ from rfl), assocLookup_cons, if_pos rfl]
    · rw [assocLookup_cons, if_neg hk] at h
      rw [if_neg (show ¬(k₀, w).1 = k from hk), assocLookup_cons, if_neg hk]
      exact ih h

theorem mem_assocSet {p : String × Task} {l : List (String × Task)}
    {k : String} {t : Task} (h : p ∈ assocSet l k t) :
    p = (k, t) ∨ p ∈ l := by
  unfold assocSet at h
  split at h
  · rcases List.mem_map.mp h with ⟨q, hq, hqe⟩
    by_cases hk : q.1 = k
    · left; rw [← hqe]; simp [hk]
    · right; rw [← hqe]; simpa [hk] using hq
  · rcases List.mem_append.mp h with h | h
    · right; exact h
    · left; simpa using h

theorem keys_assocSet_of_not_mem {l : List (String × Task)} {k : String}
    {t : Task} (h : ∀ p ∈ l, p.1 ≠ k) :
    (assocSet l k t).map Prod.fst = l.map Prod.fst ++ [k] := by
  unfold assocSet
  split
  · rename_i hany
    rcases List.any_eq_true.mp hany with ⟨p, hp, hpk⟩
    exact absurd (by simpa using hpk) (h p hp)
  · simp

theorem keys_assocSet_of_mem {l : List (String × Task)} {k : String}
    {t : Task} (h : l.any (fun p => p.1 = k) = true) :
    (assocSet l k t).map Prod.fst = l.map Prod.fst := by
  unfold assocSet
  rw [if_pos h, List.map_map]
  refine List.map_congr_left ?_
  intro p _
  by_cases hk : p.1 = k <;> simp [Function.comp, hk]

theorem keys_replaceTask (l : List (String × Task)) (k : String) (t : Task) :
    (replaceTask l k t).map Prod.fst = l.map Prod.fst := by
  unfold replaceTask
  induction l with
  | nil => rfl
  | cons p es ih =>
    by_cases hk : p.1 = k <;> simp [hk, ih]

theorem mem_replaceTask {p : String × Task} {l : List (String × Task)}
    {k : String} {t : Task} (h : p ∈ replaceTask l k t) :
    (p.1 = k ∧ p.2 = t) ∨ p ∈ l := by
  unfold replaceTask at h
  rcases List.mem_map.mp h with ⟨q, hq, hqe⟩
  by_cases hk : q.1 = k
  · left; rw [← hqe]; simp [hk]
  · right; rw [← hqe]; simpa [hk] using hq

/-! ### dict.pop (eraseP) lemmas -/

theorem lookup_eraseP_ne {k' k : String} (hne : k' ≠ k) :
    ∀ l : List (String × Task),
      assocLookup (l.eraseP (fun p => decide (p.1 = k))) k' = assocLookup l k' := by
  intro l
  induction l with
  | nil => rfl
  | cons p es ih =>
    rcases p with ⟨k₀, v⟩
    by_cases hk : k₀ = k
    · rw [List.eraseP_cons_of_pos (by simpa using hk), assocLookup_cons,
        if_neg (fun h => hne (h.symm.trans hk))]
    · rw [List.eraseP_cons_of_neg (by simpa using hk), assocLookup_cons,
        assocLookup_cons]
      by_cases hk' : k₀ = k'
      · rw [if_pos hk', if_pos hk']
      · rw [if_neg hk', if_neg hk']
        exact ih

theorem lookup_eraseP_self {k : String} :
    ∀ l : List (String × Task), (l.map Prod.fst).Nodup →
      assocLookup (l.eraseP (fun p => decide (p.1 = k))) k = none := by
  intro l
  induction l with
  | nil => intro _; rfl
  | cons p es ih =>
    intro hnd
    rcases p with ⟨k₀, v⟩
    rw [List.map_cons, List.nodup_cons] at hnd
    by_cases hk : k₀ = k
    · rw [List.eraseP_cons_of_pos (by simpa using hk)]
      refine lookup_eq_none_of_not_mem ?_
      intro q hq hqk
      exact hnd.1 (List.mem_map.mpr ⟨q, hq, by rw [hqk, ← hk]⟩)
    · rw [List.eraseP_cons_of_neg (by simpa using hk), assocLookup_cons,
        if_neg hk]
      exact ih hnd.2

/-! ### Whitespace-stripping lemmas -/

theorem stripRight_cons (c : Char) (cs : List Char) :
    stripRight (c :: cs) = match stripRight cs with
      | [] => if c.isWhitespace then [] else [c]
      | r => c :: r := rfl

theorem stripRight_idem : ∀ l : List Char, stripRight (stripRight l) = stripRight l
  | [] => rfl
  | c :: cs => by
    cases h : stripRight cs with
    | nil =>
      rw [stripRight_cons c cs, h]
      show stripRight (if c.isWhitespace then [] else [c]) =
        if c.isWhitespace then [] else [c]
      by_cases hw : c.isWhitespace
      · rw [if_pos hw]
        rfl
      · rw [if_neg hw, stripRight_cons c []]
        show (if c.isWhitespace then [] else [c]) = [c]
        rw [if_neg hw]
    | cons d ds =>
      have ih : stripRight (d :: ds) = d :: ds := h ▸ stripRight_idem cs
      rw [stripRight_cons c cs, h]
      show stripRight (c :: d :: ds) = c :: d :: ds
      rw [stripRight_cons c (d :: ds), ih]

theorem stripRight_head_shape (c : Char) (cs : List Char) :
    stripRight (c :: cs) = [] ∨ ∃ r, stripRight (c :: cs) = c :: r := by
  cases h : stripRight cs with
  | nil =>
    by_cases hw : c.isWhitespace
    · left; simp [stripRight, h, hw]
    · right; exact ⟨[], by simp [stripRight, h, hw]⟩
  | cons d ds =>
    right
    exact ⟨d :: ds, by simp [stripRight, h]⟩

theorem dropWhile_shape (p : Char → Bool) :
    ∀ l : List Char, l.dropWhile p = [] ∨
      ∃ c cs, l.dropWhile p = c :: cs ∧ p c = false := by
  intro l
  induction l with
  | nil => left; rfl
  | cons c cs ih =>
    by_cases h : p c
    · rw [List.dropWhile_cons_of_pos h]
      exact ih
    · right
      exact ⟨c, cs, List.dropWhile_cons_of_neg h, by simpa using h⟩

theorem pyStrip_idem (s : String) : pyStrip (pyStrip s) = pyStrip s := by
  have key : ∀ l : List Char,
      stripRight ((stripRight (l.dropWhile Char.isWhitespace)).dropWhile
        Char.isWhitespace) = stripRight (l.dropWhile Char.isWhitespace) := by
    intro l
    rcases dropWhile_shape Char.isWhitespace l with h | ⟨c, cs, h, hc⟩
    · rw [h]
      rfl
    · rw [h]
      rcases stripRight_head_shape c cs with h2 | ⟨r, h2⟩
      · rw [h2]
        rfl
      · rw [h2, List.dropWhile_cons_of_neg (by simp [hc]), ← h2]
        exact stripRight_idem (c :: cs)
  show String.mk (stripRight (((String.mk (stripRight (s.data.dropWhile
    Char.isWhitespace))).data).dropWhile Char.isWhitespace)) = _
  rw [show (String.mk (stripRight (s.data.dropWhile
    Char.isWhitespace))).data = stripRight (s.data.dropWhile
      Char.isWhitespace) from rfl, key s.data]
  rfl

/-! ### Uppercasing lemmas -/

theorem pyUpperChar_shape (c : Char) :
    pyUpperChar c = c ∨ pyUpperChar c ∈
      ['A', 'B', 'C', 'D', 'E', 'F', 'G', 'H', 'I', 'J', 'K', 'L', 'M',
       'N', 'O', 'P', 'Q', 'R', 'S', 'T', 'U', 'V', 'W', 'X', 'Y', 'Z'] := by
  unfold pyUpperChar
  split
  all_goals first
    | (left; rfl)
    | (right; decide)

theorem pyUpperChar_fix_upper : ∀ d ∈
    ['A', 'B', 'C', 'D', 'E', 'F', 'G', 'H', 'I', 'J', 'K', 'L', 'M',
     'N', 'O', 'P', 'Q', 'R', 'S', 'T', 'U', 'V', 'W', 'X', 'Y', 'Z'],
    pyUpperChar d = d := by
  decide

theorem pyUpperChar_idem (c : Char) :
    pyUpperChar (pyUpperChar c) = pyUpperChar c := by
  rcases pyUpperChar_shape c with h | h
  · rw [h, h]
  · rw [pyUpperChar_fix_upper _ h]

theorem strUpper_idem (s : String) : strUpper (strUpper s) = strUpper s := by
  unfold strUpper
  rw [show (String.mk (s.data.map pyUpperChar)).data = s.data.map pyUpperChar
    from rfl, List.map_map]
  congr 1
  refine List.map_congr_left ?_
  intro c _
  exact pyUpperChar_idem c

theorem pyUpperChar_eq_T_iff (c : Char) :
    pyUpperChar c = 'T' ↔ c = 'T' ∨ c = 't' := by
  unfold pyUpperChar
  split
  all_goals simp_all

theorem isDigit_pyUpperChar (c : Char) :
    (pyUpperChar c).isDigit = c.isDigit := by
  unfold pyUpperChar
  split
  all_goals rfl

/-! ### Validator characterizations -/

theorem validate_title_ok {raw t : String} (h : validate_title raw = .ok t) :
    t = pyStrip raw ∧ 0 < t.length ∧ t.length ≤ MAX_TITLE_LENGTH := by
  unfold validate_title at h
  by_cases h1 : (pyStrip raw).length = 0
  · rw [if_pos h1] at h
    exact Except.noConfusion h
  · rw [if_neg h1] at h
    by_cases h2 : MAX_TITLE_LENGTH < (pyStrip raw).length
    · rw [if_pos h2] at h
      exact Except.noConfusion h
    · rw [if_neg h2] at h
      obtain rfl : pyStrip raw = t := Except.ok.inj h
      exact ⟨rfl, Nat.pos_of_ne_zero h1, Nat.le_of_not_lt h2⟩

theorem validate_description_ok {raw d : String}
    (h : validate_description raw = .ok d) :
    d = raw ∧ d.length ≤ MAX_DESCRIPTION_LENGTH := by
  unfold validate_description at h
  by_cases h1 : MAX_DESCRIPTION_LENGTH < raw.length
  · rw [if_pos h1] at h
    exact Except.noConfusion h
  · rw [if_neg h1] at h
    obtain rfl : raw = d := Except.ok.inj h
    exact ⟨rfl, Nat.le_of_not_lt h1⟩

theorem validate_task_id_ok {raw tid : String}
    (h : validate_task_id raw = .ok tid) :
    tid = strUpper raw ∧ isValidTaskId raw = true := by
  unfold validate_task_id at h
  by_cases h1 : isValidTaskId raw = true
  · rw [if_pos h1] at h
    exact ⟨(Except.ok.inj h).symm, h1⟩
  · rw [if_neg h1] at h
    exact Except.noConfusion h

theorem titleOk_of_validate {raw t : String} (h : validate_title raw = .ok t) :
    0 < (pyStrip t).length ∧ t.length ≤ MAX_TITLE_LENGTH := by
  obtain ⟨rfl, hpos, hle⟩ := validate_title_ok h
  rw [pyStrip_idem]
  exact ⟨hpos, hle⟩

theorem strUpper_formatId (n : Nat) : strUpper (formatId n) = formatId n := by
  have hmem : ∀ c ∈ pad3Digits n, pyUpperChar c = c := by
    intro c hc
    rcases List.mem_append.mp hc with h | h
    · rw [List.eq_of_mem_replicate h]; rfl
    · exact digitsAux_mem (P := fun c => pyUpperChar c = c)
        pyUpperChar_digitChar (n + 1) n [] (by simp) c h
  simp only [strUpper, formatId, List.map_cons]
  rw [map_id_of_mem _ hmem]
  rfl

/-! ### Store invariants -/

/-- Well-formed dict: keys are unique and each entry is stored under its
own task's id, which is already uppercase. -/
def KeysWFList (l : List (String × Task)) : Prop :=
  (l.map Prod.fst).Nodup ∧ ∀ p ∈ l, p.1 = p.2.id ∧ strUpper p.2.id = p.2.id

/-- `KeysWFList` for the service state. -/
def KeysWF (s : Store) : Prop := KeysWFList s.tasks

/-- The spec's stored-title constraint: non-empty after trimming and at
most 200 characters. -/
def titleOk (t : String) : Prop :=
  0 < (pyStrip t).length ∧ t.length ≤ MAX_TITLE_LENGTH

/-- The spec's stored-description constraint: at most 1000 characters. -/
def descOk (d : String) : Prop := d.length ≤ MAX_DESCRIPTION_LENGTH

/-- Field constraints over all entries of the dict. -/
def FieldInvList (l : List (String × Task)) : Prop :=
  ∀ p ∈ l, titleOk p.2.title ∧ descOk p.2.description

/-- `FieldInvList` for the service state. -/
def FieldInv (s : Store) : Prop := FieldInvList s.tasks

/-- Allocator invariant: no id the generator can still produce collides
with a stored key.  It holds in every state reachable from a fresh store
and is preserved by saving and re-loading. -/
def AllocInv (s : Store) : Prop :=
  ∀ p ∈ s.tasks, ∀ m, s.counter < m → formatId m ≠ p.1

instance (l : List (String × Task)) : Decidable (KeysWFList l) := by
  unfold KeysWFList
  infer_instance

instance (s : Store) : Decidable (KeysWF s) := by
  unfold KeysWF
  infer_instance

instance (t : String) : Decidable (titleOk t) := by
  unfold titleOk
  infer_instance

instance (d : String) : Decidable (descOk d) := by
  unfold descOk
  infer_instance

instance (l : List (String × Task)) : Decidable (FieldInvList l) := by
  unfold FieldInvList
  infer_instance

instance (s : Store) : Decidable (FieldInv s) := by
  unfold FieldInv
  infer_instance

theorem allocInv_of_idNum {s : Store}
    (h : ∀ p ∈ s.tasks, idNum p.1 ≤ s.counter) : AllocInv s := by
  intro p hp m hm heq
  have hnum : idNum p.1 = m := by rw [← heq, idNum_formatId]
  have := h p hp
  omega

theorem keysWFList_assocSet {l : List (String × Task)} {k : String}
    {t : Task} (hwf : KeysWFList l) (hk : k = t.id)
    (hu : strUpper t.id = t.id) : KeysWFList (assocSet l k t) := by
  constructor
  · by_cases hany : l.any (fun p => p.1 = k) = true
    · rw [keys_assocSet_of_mem hany]
      exact hwf.1
    · have hnot : ∀ p ∈ l, p.1 ≠ k := fun p hp hpk =>
        hany (List.any_eq_true.mpr ⟨p, hp, by simpa using hpk⟩)
      rw [keys_assocSet_of_not_mem hnot]
      refine List.Nodup.append hwf.1 (List.nodup_singleton k) ?_
      intro a ha hb
      rcases List.mem_map.mp ha with ⟨p, hp, rfl⟩
      exact hnot p hp (by simpa using hb)
  · intro p hp
    rcases mem_assocSet hp with rfl | hpl
    · exact ⟨hk, hk ▸ hu⟩
    · exact hwf.2 p hpl

theorem keysWFList_replaceTask {l : List (String × Task)} {k : String}
    {t : Task} (hwf : KeysWFList l) (hk : k = t.id)
    (hu : strUpper t.id = t.id) : KeysWFList (replaceTask l k t) := by
  constructor
  · rw [keys_replaceTask]
    exact hwf.1
  · intro p hp
    rcases mem_replaceTask hp with ⟨h1, h2⟩ | hpl
    · exact ⟨by rw [h1, h2, hk], by rw [h2]; exact hu⟩
    · exact hwf.2 p hpl

theorem keysWFList_eraseP {l : List (String × Task)}
    {q : String × Task → Bool} (hwf : KeysWFList l) :
    KeysWFList (l.eraseP q) := by
  constructor
  · exact List.Nodup.sublist (List.Sublist.map Prod.fst (List.eraseP_sublist l)) hwf.1
  · intro p hp
    exact hwf.2 p ((List.eraseP_sublist l).subset hp)

theorem fieldInvList_assocSet {l : List (String × Task)} {k : String}
    {t : Task} (hinv : FieldInvList l) (ht : titleOk t.title)
    (hd : descOk t.description) : FieldInvList (assocSet l k t) := by
  intro p hp
  rcases mem_assocSet hp with rfl | hpl
  · exact ⟨ht, hd⟩
  · exact hinv p hpl

theorem fieldInvList_replaceTask {l : List (String × Task)} {k : String}
    {t : Task} (hinv : FieldInvList l) (ht : titleOk t.title)
    (hd : descOk t.description) : FieldInvList (replaceTask l k t) := by
  intro p hp
  rcases mem_replaceTask hp with ⟨h1, h2⟩ | hpl
  · rw [h2]
    exact ⟨ht, hd⟩
  · exact hinv p hpl

theorem fieldInvList_eraseP {l : List (String × Task)}
    {q : String × Task → Bool} (hinv : FieldInvList l) :
    FieldInvList (l.eraseP q) := by
  intro p hp
  exact hinv p ((List.eraseP_sublist l).subset hp)

/-! ### Operation case analyses -/

theorem getEntry_ok_iff {s : Store} {task_id tid : String} {task : Task} :
    getEntry s task_id = .ok (tid, task) ↔
      validate_task_id task_id = .ok tid ∧
        assocLookup s.tasks tid = some task := by
  unfold getEntry
  cases hv : validate_task_id task_id with
  | error e =>
    dsimp only
    constructor
    · intro h; exact Except.noConfusion h
    · rintro ⟨h1, _⟩; exact Except.noConfusion h1
  | ok tid' =>
    dsimp only
    cases hl : assocLookup s.tasks tid' with
    | none =>
      dsimp only
      constructor
      · intro h; exact Except.noConfusion h
      · rintro ⟨h1, h2⟩
        obtain rfl : tid' = tid := Except.ok.inj h1
        rw [hl] at h2
        exact Option.noConfusion h2
    | some tk =>
      dsimp only
      constructor
      · intro h
        have hpair : (tid', tk) = (tid, task) := Except.ok.inj h
        obtain rfl : tid' = tid := congrArg Prod.fst hpair
        obtain rfl : tk = task := congrArg Prod.snd hpair
        exact ⟨rfl, hl⟩
      · rintro ⟨h1, h2⟩
        obtain rfl : tid' = tid := Except.ok.inj h1
        rw [hl] at h2
        obtain rfl : tk = task := Option.some_inj.mp h2
        rfl

theorem getEntry_error_cases {s : Store} {task_id : String} {e : Err}
    (h : getEntry s task_id = .error e) :
    e = .InvalidIDFormat ∨ ∃ tid, e = .TaskNotFound tid := by
  unfold getEntry at h
  cases hv : validate_task_id task_id with
  | error e' =>
    rw [hv] at h
    dsimp only at h
    obtain rfl : e' = e := Except.error.inj h
    unfold validate_task_id at hv
    by_cases h1 : isValidTaskId task_id = true
    · rw [if_pos h1] at hv
      exact Except.noConfusion hv
    · rw [if_neg h1] at hv
      exact Or.inl (Except.error.inj hv).symm
  | ok tid =>
    rw [hv] at h
    dsimp only at h
    cases hl : assocLookup s.tasks tid with
    | none =>
      rw [hl] at h
      dsimp only at h
      exact Or.inr ⟨tid, (Except.error.inj h).symm⟩
    | some tk =>
      rw [hl] at h
      dsimp only at h
      exact Except.noConfusion h

theorem add_cases (s : Store) (title description : String) (now : Timestamp) :
    (∃ e, validate_title title = .error e ∧
      TaskService.add s title description now = (.error e, s, false)) ∨
    (∃ t1 e, validate_title title = .ok t1 ∧
      validate_description description = .error e ∧
      TaskService.add s title description now = (.error e, s, false)) ∨
    (∃ t1 d1, validate_title title = .ok t1 ∧
      validate_description description = .ok d1 ∧
      TaskService.add s title description now =
        (.ok (mkTask (formatId (s.counter + 1)) t1 d1 false now),
          ⟨assocSet s.tasks (formatId (s.counter + 1))
            (mkTask (formatId (s.counter + 1)) t1 d1 false now),
            s.counter + 1⟩, true)) := by
  unfold TaskService.add
  cases hv : validate_title title with
  | error e => exact Or.inl ⟨e, rfl, rfl⟩
  | ok t1 =>
    cases hd : validate_description description with
    | error e => exact Or.inr (Or.inl ⟨t1, e, rfl, rfl, rfl⟩)
    | ok d1 => exact Or.inr (Or.inr ⟨t1, d1, rfl, rfl, rfl⟩)

theorem delete_cases (s : Store) (task_id : String) :
    (∃ e, validate_task_id task_id = .error e ∧
      TaskService.delete s task_id = (.error e, s, false)) ∨
    (∃ tid, validate_task_id task_id = .ok tid ∧
      assocLookup s.tasks tid = none ∧
      TaskService.delete s task_id = (.error (.TaskNotFound tid), s, false)) ∨
    (∃ tid t, validate_task_id task_id = .ok tid ∧
      assocLookup s.tasks tid = some t ∧
      TaskService.delete s task_id =
        (.ok t, ⟨s.tasks.eraseP (fun p => decide (p.1 = tid)), s.counter⟩,
          true)) := by
  unfold TaskService.delete
  cases hv : validate_task_id task_id with
  | error e => exact Or.inl ⟨e, rfl, rfl⟩
  | ok tid =>
    dsimp only
    cases hl : assocLookup s.tasks tid with
    | none => exact Or.inr (Or.inl ⟨tid, rfl, hl, rfl⟩)
    | some t => exact Or.inr (Or.inr ⟨tid, t, rfl, hl, rfl⟩)

theorem mark_complete_cases (s : Store) (task_id : String) :
    (∃ e, getEntry s task_id = .error e ∧
      TaskService.mark_complete s task_id = (.error e, s, false)) ∨
    (∃ tid task, getEntry s task_id = .ok (tid, task) ∧
      task.completed = true ∧
      TaskService.mark_complete s task_id = (.ok (task, false), s, false)) ∨
    (∃ tid task, getEntry s task_id = .ok (tid, task) ∧
      task.completed = false ∧
      TaskService.mark_complete s task_id =
        (.ok ({ task with completed := true }, true),
          ⟨replaceTask s.tasks tid { task with completed := true },
            s.counter⟩, true)) := by
  unfold TaskService.mark_complete
  cases hg : getEntry s task_id with
  | error e => exact Or.inl ⟨e, rfl, rfl⟩
  | ok p =>
    rcases p with ⟨tid, task⟩
    dsimp only
    by_cases hc : task.completed
    · rw [if_pos hc]
      exact Or.inr (Or.inl ⟨tid, task, rfl, hc, rfl⟩)
    · rw [if_neg hc]
      exact Or.inr (Or.inr ⟨tid, task, rfl, by simpa using hc, rfl⟩)

theorem mark_incomplete_cases (s : Store) (task_id : String) :
    (∃ e, getEntry s task_id = .error e ∧
      TaskService.mark_incomplete s task_id = (.error e, s, false)) ∨
    (∃ tid task, getEntry s task_id = .ok (tid, task) ∧
      task.completed = false ∧
      TaskService.mark_incomplete s task_id = (.ok (task, false), s, false)) ∨
    (∃ tid task, getEntry s task_id = .ok (tid, task) ∧
      task.completed = true ∧
      TaskService.mark_incomplete s task_id =
        (.ok ({ task with completed := false }, true),
          ⟨replaceTask s.tasks tid { task with completed := false },
            s.counter⟩, true)) := by
  unfold TaskService.mark_incomplete
  cases hg : getEntry s task_id with
  | error e => exact Or.inl ⟨e, rfl, rfl⟩
  | ok p =>
    rcases p with ⟨tid, task⟩
    dsimp only
    by_cases hc : task.completed
    · rw [if_pos hc]
      exact Or.inr (Or.inr ⟨tid, task, rfl, hc, rfl⟩)
    · rw [if_neg hc]
      exact Or.inr (Or.inl ⟨tid, task, rfl, by simpa using hc, rfl⟩)

theorem update_cases (s : Store) (task_id : String)
    (title description : Option String) :
    (title = none ∧ description = none ∧
      TaskService.update s task_id title description =
        (.error .NoChangesSpecified, s, false)) ∨
    (¬(title = none ∧ description = none) ∧
      ∃ e, getEntry s task_id = .error e ∧
        TaskService.update s task_id title description = (.error e, s, false)) ∨
    (∃ tid task t0 e, getEntry s task_id = .ok (tid, task) ∧
      title = some t0 ∧ validate_title t0 = .error e ∧
      TaskService.update s task_id title description = (.error e, s, false)) ∨
    (∃ tid task t0 t1 d0 e, getEntry s task_id = .ok (tid, task) ∧
      title = some t0 ∧ validate_title t0 = .ok t1 ∧ description = some d0 ∧
      validate_description d0 = .error e ∧
      TaskService.update s task_id title description =
        (.error e,
          ⟨replaceTask s.tasks tid { task with title := t1 }, s.counter⟩,
          false)) ∨
    (∃ tid task t0 t1 d0 d1, getEntry s task_id = .ok (tid, task) ∧
      title = some t0 ∧ validate_title t0 = .ok t1 ∧ description = some d0 ∧
      validate_description d0 = .ok d1 ∧
      TaskService.update s task_id title description =
        (.ok { task with title := t1, description := d1 },
          ⟨replaceTask s.tasks tid
            { task with title := t1, description := d1 }, s.counter⟩,
          true)) ∨
    (∃ tid task t0 t1, getEntry s task_id = .ok (tid, task) ∧
      title = some t0 ∧ validate_title t0 = .ok t1 ∧ description = none ∧
      TaskService.update s task_id title description =
        (.ok { task with title := t1 },
          ⟨replaceTask s.tasks tid { task with title := t1 }, s.counter⟩,
          true)) ∨
    (∃ tid task d0 e, getEntry s task_id = .ok (tid, task) ∧
      title = none ∧ description = some d0 ∧
      validate_description d0 = .error e ∧
      TaskService.update s task_id title description = (.error e, s, false)) ∨
    (∃ tid task d0 d1, getEntry s task_id = .ok (tid, task) ∧
      title = none ∧ description = some d0 ∧
      validate_description d0 = .ok d1 ∧
      TaskService.update s task_id title description =
        (.ok { task with description := d1 },
          ⟨replaceTask s.tasks tid { task with description := d1 },
            s.counter⟩,
          true)) := by
  unfold TaskService.update
  cases title with
  | none =>
    cases description with
    | none => exact Or.inl ⟨rfl, rfl, rfl⟩
    | some d0 =>
      dsimp only
      cases hg : getEntry s task_id with
      | error e =>
        exact Or.inr (Or.inl ⟨by simp, e, rfl, rfl⟩)
      | ok p =>
        rcases p with ⟨tid, task⟩
        dsimp only
        cases hd : validate_description d0 with
        | error e =>
          refine Or.inr (Or.inr (Or.inr (Or.inr (Or.inr (Or.inr (Or.inl
            ⟨tid, task, d0, e, rfl, rfl, rfl, hd, rfl⟩))))))
        | ok d1 =>
          refine Or.inr (Or.inr (Or.inr (Or.inr (Or.inr (Or.inr (Or.inr
            ⟨tid, task, d0, d1, rfl, rfl, rfl, hd, rfl⟩))))))
  | some t0 =>
    cases description with
    | none =>
      dsimp only
      cases hg : getEntry s task_id with
      | error e =>
        exact Or.inr (Or.inl ⟨by simp, e, rfl, rfl⟩)
      | ok p =>
        rcases p with ⟨tid, task⟩
        dsimp only
        cases ht : validate_title t0 with
        | error e =>
          exact Or.inr (Or.inr (Or.inl ⟨tid, task, t0, e, rfl, rfl, ht, rfl⟩))
        | ok t1 =>
          refine Or.inr (Or.inr (Or.inr (Or.inr (Or.inr (Or.inl
            ⟨tid, task, t0, t1, rfl, rfl, ht, rfl, rfl⟩)))))
    | some d0 =>
      dsimp only
      cases hg : getEntry s task_id with
      | error e =>
        exact Or.inr (Or.inl ⟨by simp, e, rfl, rfl⟩)
      | ok p =>
        rcases p with ⟨tid, task⟩
        dsimp only
        cases ht : validate_title t0 with
        | error e =>
          exact Or.inr (Or.inr (Or.inl ⟨tid, task, t0, e, rfl, rfl, ht, rfl⟩))
        | ok t1 =>
          dsimp only
          cases hd : validate_description d0 with
          | error e =>
            refine Or.inr (Or.inr (Or.inr (Or.inl
              ⟨tid, task, t0, t1, d0, e, rfl, rfl, ht, rfl, hd, rfl⟩)))
          | ok d1 =>
            refine Or.inr (Or.inr (Or.inr (Or.inr (Or.inl
              ⟨tid, task, t0, t1, d0, d1, rfl, rfl, ht, rfl, hd, rfl⟩))))

/-! ### Persistence lemmas -/

/-- One task after a save/load round trip: only the sub-second part of
`created_at` is lost. -/
def truncTask (t : Task) : Task :=
  { t with created_at := truncMicro t.created_at }

theorem loadRecord_ok_upper {r : TaskRecord} {task : Task}
    (h : loadRecord r = .ok task) : strUpper task.id = task.id := by
  unfold loadRecord at h
  cases hi : r.id with
  | none => rw [hi] at h; exact Except.noConfusion h
  | some i =>
    rw [hi] at h
    dsimp only at h
    cases ht : r.title with
    | none => rw [ht] at h; exact Except.noConfusion h
    | some t =>
      rw [ht] at h
      dsimp only at h
      cases hc : r.created_at with
      | none => rw [hc] at h; exact Except.noConfusion h
      | some ts =>
        rw [hc] at h
        dsimp only at h
        obtain rfl : mkTask i t (r.description.getD "") (r.completed.getD false) ts = task :=
          Except.ok.inj h
        exact strUpper_idem i

theorem loadRecord_taskToRecord (t : Task) (hu : strUpper t.id = t.id) :
    loadRecord (taskToRecord t) = .ok (truncTask t) := by
  unfold loadRecord taskToRecord mkTask truncTask
  dsimp only [Option.getD]
  rw [hu]

theorem assocSet_eq_append {l : List (String × Task)} {k : String}
    {t : Task} (h : ∀ p ∈ l, p.1 ≠ k) : assocSet l k t = l ++ [(k, t)] := by
  unfold assocSet
  rw [if_neg]
  intro hany
  rcases List.any_eq_true.mp hany with ⟨p, hp, hpk⟩
  exact h p hp (by simpa using hpk)

theorem keysWFList_tail {p : String × Task} {l : List (String × Task)}
    (h : KeysWFList (p :: l)) : KeysWFList l := by
  constructor
  · exact (List.nodup_cons.mp (by simpa using h.1)).2
  · intro q hq
    exact h.2 q (List.mem_cons_of_mem _ hq)

theorem loadTasks_saved :
    ∀ (l : List (String × Task)) (acc : List (String × Task)),
      KeysWFList l → (∀ p ∈ l, ∀ q ∈ acc, q.1 ≠ p.1) →
      loadTasks (l.map (fun p => taskToRecord p.2)) acc =
        (acc ++ l.map (fun p => (p.1, truncTask p.2)), true)
  | [], acc, _, _ => by simp [loadTasks]
  | (k, t) :: l', acc, hwf, hfresh => by
    have hmem : (k, t) ∈ (k, t) :: l' := List.mem_cons_self _ _
    have hk : k = t.id := (hwf.2 _ hmem).1
    have hu : strUpper t.id = t.id := (hwf.2 _ hmem).2
    have hknotin : ∀ p ∈ l', p.1 ≠ k := by
      intro p hp hpk
      have hnd := hwf.1
      rw [List.map_cons, List.nodup_cons] at hnd
      exact hnd.1 (List.mem_map.mpr ⟨p, hp, hpk⟩)
    rw [List.map_cons]
    show loadTasks (taskToRecord t :: l'.map (fun p => taskToRecord p.2)) acc = _
    unfold loadTasks
    rw [loadRecord_taskToRecord t hu]
    dsimp only
    have hset : assocSet acc (truncTask t).id (truncTask t) =
        acc ++ [(k, truncTask t)] := by
      rw [assocSet_eq_append]
      · rw [show (truncTask t).id = t.id from rfl, ← hk]
      · intro q hq
        rw [show (truncTask t).id = t.id from rfl, ← hk]
        exact hfresh (k, t) hmem q hq
    rw [hset]
    rw [loadTasks_saved l' (acc ++ [(k, truncTask t)]) (keysWFList_tail hwf) ?_]
    · rw [List.map_cons, List.append_assoc]
      rfl
    · intro p hp q hq
      rcases List.mem_append.mp hq with hq | hq
      · exact hfresh p (List.mem_cons_of_mem _ hp) q hq
      · obtain rfl : q = (k, truncTask t) := by simpa using hq
        exact fun hqp => hknotin p hp hqp.symm

/-- `loadTasks`-to-`takeWhile` bridge: a load processes exactly the
longest prefix of well-formed records, and succeeds iff all records are
well-formed. -/
theorem loadTasks_takeWhile :
    ∀ (recs : List TaskRecord) (acc : List (String × Task)),
      loadTasks recs acc =
        ((loadTasks (recs.takeWhile recOk) acc).1, recs.all recOk)
  | [], _ => rfl
  | r :: rs, acc => by
    cases h : loadRecord r with
    | error e =>
      have hro : recOk r = false := by unfold recOk; rw [h]
      have htw : (r :: rs).takeWhile recOk = [] := by
        rw [List.takeWhile_cons, hro]
        rfl
      have hall : (r :: rs).all recOk = false := by
        rw [List.all_cons, hro]
        rfl
      rw [htw, hall]
      unfold loadTasks
      rw [h]
    | ok task =>
      have hro : recOk r = true := by unfold recOk; rw [h]
      have htw : (r :: rs).takeWhile recOk = r :: rs.takeWhile recOk := by
        rw [List.takeWhile_cons, hro]
        rfl
      have hall : (r :: rs).all recOk = rs.all recOk := by
        rw [List.all_cons, hro]
        rfl
      rw [htw, hall]
      unfold loadTasks
      rw [h]
      dsimp only
      exact loadTasks_takeWhile rs (assocSet acc task.id task)

theorem keysWFList_loadTasks :
    ∀ (recs : List TaskRecord) (acc : List (String × Task)),
      KeysWFList acc → KeysWFList (loadTasks recs acc).1
  | [], acc, hacc => hacc
  | r :: rs, acc, hacc => by
    unfold loadTasks
    cases h : loadRecord r with
    | error e => exact hacc
    | ok task =>
      dsimp only
      refine keysWFList_loadTasks rs _ ?_
      exact keysWFList_assocSet hacc rfl (loadRecord_ok_upper h)

/-! ### Counter preservation -/

theorem update_counter (s : Store) (tid : String) (t d : Option String) :
    (TaskService.update s tid t d).2.1.counter = s.counter := by
  rcases update_cases s tid t d with
    ⟨_, _, h⟩ | ⟨_, e, _, h⟩ | ⟨a, b, c, e, _, _, _, h⟩ |
    ⟨a, b, c, e, f, g, _, _, _, _, _, h⟩ |
    ⟨a, b, c, e, f, g, _, _, _, _, _, h⟩ |
    ⟨a, b, c, e, _, _, _, _, h⟩ | ⟨a, b, c, e, _, _, _, _, h⟩ |
    ⟨a, b, c, e, _, _, _, _, h⟩ <;> rw [h]

theorem delete_counter (s : Store) (tid : String) :
    (TaskService.delete s tid).2.1.counter = s.counter := by
  rcases delete_cases s tid with
    ⟨e, _, h⟩ | ⟨a, _, _, h⟩ | ⟨a, b, _, _, h⟩ <;> rw [h]

theorem mark_complete_counter (s : Store) (tid : String) :
    (TaskService.mark_complete s tid).2.1.counter = s.counter := by
  rcases mark_complete_cases s tid with
    ⟨e, _, h⟩ | ⟨a, b, _, _, h⟩ | ⟨a, b, _, _, h⟩ <;> rw [h]

theorem mark_incomplete_counter (s : Store) (tid : String) :
    (TaskService.mark_incomplete s tid).2.1.counter = s.counter := by
  rcases mark_incomplete_cases s tid with
    ⟨e, _, h⟩ | ⟨a, b, _, _, h⟩ | ⟨a, b, _, _, h⟩ <;> rw [h]

/-! ### Claim C3 -/

/-- Timestamp used by concrete examples. -/
def tsW : Timestamp := ⟨2025, 12, 29, 10, 30, 0, 0⟩

/-- Store holding ids `T999` and `T1000`, reachable by 1000 `add`s and
998 `delete`s from a fresh store. -/
def storeC3 : Store :=
  ⟨[("T999", ⟨"T999", "almost", "", false, tsW⟩),
    ("T1000", ⟨"T1000", "thousandth", "", true, tsW⟩)], 1000⟩

/-- Claim C3 counterexample: `list_all` is NOT ascending in the numeric
sense of the id.  On a store holding `T999` and `T1000`, Python's string
sort puts `"T1000"` before `"T999"` (code-point comparison of `'1'` and
`'9'`), while the claim requires `T999` first. -/
theorem C3_counterexample :
    (TaskService.list_all storeC3).map Task.id = ["T1000", "T999"] ∧
    idNum "T999" < idNum "T1000" ∧
    ¬ (TaskService.list_all storeC3).Pairwise
        (fun a b => idNum a.id ≤ idNum b.id) := by
  refine ⟨by decide, by decide, ?_⟩
  intro h
  have : (TaskService.list_all storeC3).Pairwise
      (fun a b => idNum a.id ≤ idNum b.id) → False := by decide
  exact this h

/-- Claim C3 (amended): for every store state, `list_all` returns all
stored tasks sorted ascending by LEXICOGRAPHIC (code-point) comparison
of the id strings — which agrees with numeric order only between ids of
equal digit count — and `list_pending` / `list_completed` are exactly the
`completed=false` / `completed=true` subsequences of that same order. -/
theorem C3_list_sorted (s : Store) :
    (TaskService.list_all s).Pairwise idLe ∧
    (TaskService.list_all s).Perm (s.tasks.map Prod.snd) ∧
    TaskService.list_pending s =
      (TaskService.list_all s).filter (fun t => !t.completed) ∧
    TaskService.list_completed s =
      (TaskService.list_all s).filter (fun t => t.completed) := by
  refine ⟨?_, ?_, rfl, rfl⟩
  · exact List.sorted_insertionSort idLe _
  · exact List.perm_insertionSort idLe _

/-! ### Claim C4 -/

/-- Store whose single task has a sub-second `created_at` component, as
`datetime.now()` produces on `add`. -/
def storeC4 : Store :=
  ⟨[("T001", ⟨"T001", "Buy groceries", "Milk", false,
    ⟨2025, 12, 29, 10, 30, 0, 123456⟩⟩)], 1⟩

/-- Claim C4 counterexample: save-then-load does NOT reproduce identical
task fields.  `format_created_at` renders `%Y-%m-%dT%H:%M:%S`, so a task
whose in-memory `created_at` carries microseconds (any task freshly
created via `datetime.now()`) loads back with the microseconds zeroed:
the reloaded store differs from the saved one in `created_at`. -/
theorem C4_counterexample :
    loadStore (some (saveStore storeC4)) ≠ storeC4 ∧
    (loadStore (some (saveStore storeC4))).tasks.map
      (fun p => p.2.created_at.micro) = [0] ∧
    storeC4.tasks.map (fun p => p.2.created_at.micro) = [123456] := by
  refine ⟨by decide, by decide, by decide⟩

/-- Claim C4 (amended): for every well-formed store, saving and loading
into a new store reproduces the counter and every task's id, title,
description and completed flag exactly, and `created_at` up to dropping
the sub-second component (`strftime("%Y-%m-%dT%H:%M:%S")` followed by
`fromisoformat`); in particular the round trip is the identity whenever
no stored `created_at` has a sub-second part — e.g. for any state that
itself came from disk. -/
theorem C4_roundtrip (s : Store) (hwf : KeysWF s) :
    loadStore (some (saveStore s)) =
      ⟨s.tasks.map (fun p => (p.1, truncTask p.2)), s.counter⟩ ∧
    ((∀ p ∈ s.tasks, p.2.created_at.micro = 0) →
      loadStore (some (saveStore s)) = s) := by
  have hload : loadStore (some (saveStore s)) =
      ⟨s.tasks.map (fun p => (p.1, truncTask p.2)), s.counter⟩ := by
    unfold loadStore saveStore
    dsimp only [Option.getD]
    rw [loadTasks_saved s.tasks [] hwf (by simp)]
    simp
  refine ⟨hload, fun hmicro => ?_⟩
  rw [hload]
  have : s.tasks.map (fun p => (p.1, truncTask p.2)) = s.tasks := by
    refine List.map_congr_left ?_ |>.trans (List.map_id s.tasks)
    intro p hp
    have h0 : p.2.created_at.micro = 0 := hmicro p hp
    show (p.1, truncTask p.2) = id p
    unfold truncTask truncMicro
    rcases p with ⟨k, t⟩
    rcases t with ⟨i, ti, de, co, ca⟩
    rcases ca with ⟨y, mo, da, ho, mi, se, mic⟩
    simp only [id]
    congr 1
    dsimp only at h0 ⊢
    rw [h0]
  rw [this]

/-- Claim C4 witness data. -/
def storeC4w : Store :=
  ⟨[("T001", ⟨"T001", "Buy groceries", "Milk", false, tsW⟩),
    ("T002", ⟨"T002", "Call mom", "", true, ⟨2025, 12, 29, 10, 35, 0, 0⟩⟩)], 2⟩

/-- Claim C4 witness: the round trip at a concrete two-task store with
whole-second timestamps is the identity. -/
theorem C4_roundtrip_witness :
    loadStore (some (saveStore storeC4w)) = storeC4w :=
  (C4_roundtrip storeC4w (by decide)).2 (by decide)

/-! ### Claim C6 -/

/-- Pending task for the mark witnesses. -/
def taskC6a : Task := ⟨"T001", "Buy groceries", "Milk", false, tsW⟩

/-- Completed task for the mark witnesses. -/
def taskC6b : Task := ⟨"T002", "Call mom", "", true, tsW⟩

/-- Two-task store for the mark witnesses. -/
def storeC6 : Store := ⟨[("T001", taskC6a), ("T002", taskC6b)], 2⟩

/-- Claim C6: for every existing task, `mark_complete` returns the task
with `changed=false`, performs no state change and no persistence write
when the task is already completed; otherwise it sets `completed=true`
in place (all other fields and all other tasks untouched, counter
unchanged), persists, and returns `changed=true`.  `mark_incomplete` is
symmetric with the roles of `completed=true` and `completed=false`
exchanged. -/
theorem C6_mark (s : Store) (raw tid : String) (task : Task)
    (hget : getEntry s raw = .ok (tid, task)) :
    (task.completed = true →
      TaskService.mark_complete s raw = (.ok (task, false), s, false)) ∧
    (task.completed = false →
      ∃ task',
        (TaskService.mark_complete s raw).1 = .ok (task', true) ∧
        task'.completed = true ∧ task'.id = task.id ∧
        task'.title = task.title ∧ task'.description = task.description ∧
        task'.created_at = task.created_at ∧
        (TaskService.mark_complete s raw).2.2 = true ∧
        (TaskService.mark_complete s raw).2.1.counter = s.counter ∧
        assocLookup (TaskService.mark_complete s raw).2.1.tasks tid =
          some task' ∧
        ∀ k, k ≠ tid →
          assocLookup (TaskService.mark_complete s raw).2.1.tasks k =
            assocLookup s.tasks k) ∧
    (task.completed = false →
      TaskService.mark_incomplete s raw = (.ok (task, false), s, false)) ∧
    (task.completed = true →
      ∃ task',
        (TaskService.mark_incomplete s raw).1 = .ok (task', true) ∧
        task'.completed = false ∧ task'.id = task.id ∧
        task'.title = task.title ∧ task'.description = task.description ∧
        task'.created_at = task.created_at ∧
        (TaskService.mark_incomplete s raw).2.2 = true ∧
        (TaskService.mark_incomplete s raw).2.1.counter = s.counter ∧
        assocLookup (TaskService.mark_incomplete s raw).2.1.tasks tid =
          some task' ∧
        ∀ k, k ≠ tid →
          assocLookup (TaskService.mark_incomplete s raw).2.1.tasks k =
            assocLookup s.tasks k) := by
  obtain ⟨hv, hl⟩ := getEntry_ok_iff.mp hget
  refine ⟨?_, ?_, ?_, ?_⟩
  · intro hc
    rcases mark_complete_cases s raw with
      ⟨e, hg, heq⟩ | ⟨a, b, hg, hb, heq⟩ | ⟨a, b, hg, hb, heq⟩
    · rw [hget] at hg
      exact Except.noConfusion hg
    · rw [hget] at hg
      have hpair := Except.ok.inj hg
      obtain rfl : a = tid := (congrArg Prod.fst hpair).symm
      obtain rfl : b = task := (congrArg Prod.snd hpair).symm
      exact heq
    · rw [hget] at hg
      have hpair := Except.ok.inj hg
      obtain rfl : b = task := (congrArg Prod.snd hpair).symm
      rw [hc] at hb
      exact Bool.noConfusion hb
  · intro hc
    rcases mark_complete_cases s raw with
      ⟨e, hg, heq⟩ | ⟨a, b, hg, hb, heq⟩ | ⟨a, b, hg, hb, heq⟩
    · rw [hget] at hg
      exact Except.noConfusion hg
    · rw [hget] at hg
      have hpair := Except.ok.inj hg
      obtain rfl : b = task := (congrArg Prod.snd hpair).symm
      rw [hc] at hb
      exact Bool.noConfusion hb
    · rw [hget] at hg
      have hpair := Except.ok.inj hg
      obtain rfl : a = tid := (congrArg Prod.fst hpair).symm
      obtain rfl : b = task := (congrArg Prod.snd hpair).symm
      rw [heq]
      refine ⟨_, rfl, rfl, rfl, rfl, rfl, rfl, rfl, rfl, ?_, ?_⟩
      · exact lookup_replaceTask_self s.tasks _ hl
      · intro k hk
        exact lookup_replaceTask_ne hk s.tasks _
  · intro hc
    rcases mark_incomplete_cases s raw with
      ⟨e, hg, heq⟩ | ⟨a, b, hg, hb, heq⟩ | ⟨a, b, hg, hb, heq⟩
    · rw [hget] at hg
      exact Except.noConfusion hg
    · rw [hget] at hg
      have hpair := Except.ok.inj hg
      obtain rfl : a = tid := (congrArg Prod.fst hpair).symm
      obtain rfl : b = task := (congrArg Prod.snd hpair).symm
      exact heq
    · rw [hget] at hg
      have hpair := Except.ok.inj hg
      obtain rfl : b = task := (congrArg Prod.snd hpair).symm
      rw [hc] at hb
      exact Bool.noConfusion hb
  · intro hc
    rcases mark_incomplete_cases s raw with
      ⟨e, hg, heq⟩ | ⟨a, b, hg, hb, heq⟩ | ⟨a, b, hg, hb, heq⟩
    · rw [hget] at hg
      exact Except.noConfusion hg
    · rw [hget] at hg
      have hpair := Except.ok.inj hg
      obtain rfl : b = task := (congrArg Prod.snd hpair).symm
      rw [hc] at hb
      exact Bool.noConfusion hb
    · rw [hget] at hg
      have hpair := Except.ok.inj hg
      obtain rfl : a = tid := (congrArg Prod.fst hpair).symm
      obtain rfl : b = task := (congrArg Prod.snd hpair).symm
      rw [heq]
      refine ⟨_, rfl, rfl, rfl, rfl, rfl, rfl, rfl, rfl, ?_, ?_⟩
      · exact lookup_replaceTask_self s.tasks _ hl
      · intro k hk
        exact lookup_replaceTask_ne hk s.tasks _

/-- Claim C6 witness: on a concrete store, marking the already-completed
`T002` complete and the already-pending `T001` incomplete change
nothing and do not save, while marking the pending `T001` complete
saves. -/
theorem C6_mark_witness :
    TaskService.mark_complete storeC6 "T002" =
      (.ok (taskC6b, false), storeC6, false) ∧
    TaskService.mark_incomplete storeC6 "t001" =
      (.ok (taskC6a, false), storeC6, false) ∧
    (TaskService.mark_complete storeC6 "T001").2.2 = true := by
  obtain ⟨t', _, _, _, _, _, _, hsaved, _, _, _⟩ :=
    (C6_mark storeC6 "T001" "T001" taskC6a (by decide)).2.1 rfl
  exact ⟨(C6_mark storeC6 "T002" "T002" taskC6b (by decide)).1 rfl,
    (C6_mark storeC6 "t001" "T001" taskC6a (by decide)).2.2.1 rfl, hsaved⟩

/-! ### Claim C7 -/

/-- The spec's wording for a valid task id: case-insensitively, the
letter `T` followed by one or more ASCII digits and nothing else. -/
def SpecIdShape (raw : String) : Prop :=
  match raw.data with
  | [] => False
  | c :: rest => (c = 'T' ∨ c = 't') ∧ rest ≠ [] ∧ ∀ d ∈ rest, d.isDigit = true

instance (raw : String) : Decidable (SpecIdShape raw) := by
  unfold SpecIdShape
  cases raw.data with
  | nil => exact inferInstanceAs (Decidable False)
  | cons c rest => exact inferInstanceAs (Decidable (_ ∧ _ ∧ _))

theorem isValidTaskId_iff (raw : String) :
    isValidTaskId raw = true ↔ SpecIdShape raw := by
  unfold isValidTaskId SpecIdShape
  rw [show (strUpper raw).data = raw.data.map pyUpperChar from rfl]
  cases hd : raw.data with
  | nil => simp
  | cons c rest =>
    rw [List.map_cons]
    dsimp only
    rw [Bool.and_eq_true, Bool.and_eq_true]
    constructor
    · rintro ⟨⟨hT, hne⟩, hdig⟩
      refine ⟨(pyUpperChar_eq_T_iff c).mp (by simpa using hT), ?_, ?_⟩
      · intro h
        subst h
        simp at hne
      · intro d hd'
        have := List.all_eq_true.mp hdig (pyUpperChar d)
          (List.mem_map_of_mem _ hd')
        rwa [isDigit_pyUpperChar] at this
    · rintro ⟨hT, hne, hdig⟩
      refine ⟨⟨by simpa using (pyUpperChar_eq_T_iff c).mpr hT, ?_⟩, ?_⟩
      · simpa using hne
      · refine List.all_eq_true.mpr ?_
        intro d hd'
        rcases List.mem_map.mp hd' with ⟨d0, hd0, rfl⟩
        rw [isDigit_pyUpperChar]
        exact hdig d0 hd0

theorem validate_task_id_strUpper (raw : String) :
    validate_task_id (strUpper raw) = validate_task_id raw := by
  unfold validate_task_id
  rw [show isValidTaskId (strUpper raw) = isValidTaskId raw by
    unfold isValidTaskId
    rw [strUpper_idem], strUpper_idem]

theorem getEntry_strUpper (s : Store) (raw : String) :
    getEntry s (strUpper raw) = getEntry s raw := by
  unfold getEntry
  rw [validate_task_id_strUpper]

/-- Claim C7: `validate_task_id` succeeds exactly when the input,
case-insensitively, is the letter `T` followed by one or more ASCII
digits with no other characters (`T1`, `T12345` succeed; `T`, `Tabc`,
`X001`, `001` and the empty string fail with `InvalidIDFormat`); on
success it returns the uppercased canonical form; consequently `get`,
`update`, `delete`, `mark_complete` and `mark_incomplete` behave on a
lowercase or mixed-case id exactly as on the uppercased id, and a valid
id addresses the task stored under the uppercase key. -/
theorem C7_validate_task_id :
    (∀ raw : String, (∃ v, validate_task_id raw = .ok v) ↔ SpecIdShape raw) ∧
    (∀ raw v : String, validate_task_id raw = .ok v → v = strUpper raw) ∧
    (∀ raw : String, ¬ SpecIdShape raw →
      validate_task_id raw = .error .InvalidIDFormat) ∧
    validate_task_id "T1" = .ok "T1" ∧
    validate_task_id "T12345" = .ok "T12345" ∧
    validate_task_id "t001" = .ok "T001" ∧
    validate_task_id "T" = .error .InvalidIDFormat ∧
    validate_task_id "Tabc" = .error .InvalidIDFormat ∧
    validate_task_id "X001" = .error .InvalidIDFormat ∧
    validate_task_id "001" = .error .InvalidIDFormat ∧
    validate_task_id "" = .error .InvalidIDFormat ∧
    (∀ (s : Store) (raw : String),
      TaskService.get s raw = TaskService.get s (strUpper raw) ∧
      TaskService.delete s raw = TaskService.delete s (strUpper raw) ∧
      (∀ t d, TaskService.update s raw t d =
        TaskService.update s (strUpper raw) t d) ∧
      TaskService.mark_complete s raw =
        TaskService.mark_complete s (strUpper raw) ∧
      TaskService.mark_incomplete s raw =
        TaskService.mark_incomplete s (strUpper raw)) ∧
    (∀ (s : Store) (raw : String), isValidTaskId raw = true →
      ∀ t : Task, TaskService.get s raw = .ok t ↔
        assocLookup s.tasks (strUpper raw) = some t) := by
  refine ⟨?_, ?_, ?_, by decide, by decide, by decide, by decide, by decide,
    by decide, by decide, by decide, ?_, ?_⟩
  · intro raw
    constructor
    · rintro ⟨v, hv⟩
      exact (isValidTaskId_iff raw).mp (validate_task_id_ok hv).2
    · intro hs
      refine ⟨strUpper raw, ?_⟩
      unfold validate_task_id
      rw [if_pos ((isValidTaskId_iff raw).mpr hs)]
  · intro raw v hv
    exact (validate_task_id_ok hv).1
  · intro raw hs
    unfold validate_task_id
    rw [if_neg fun h => hs ((isValidTaskId_iff raw).mp h)]
  · intro s raw
    refine ⟨?_, ?_, ?_, ?_, ?_⟩
    · unfold TaskService.get
      rw [getEntry_strUpper]
    · unfold TaskService.delete
      rw [validate_task_id_strUpper]
    · intro t d
      unfold TaskService.update
      rw [getEntry_strUpper]
    · unfold TaskService.mark_complete
      rw [getEntry_strUpper]
    · unfold TaskService.mark_incomplete
      rw [getEntry_strUpper]
  · intro s raw hvalid t
    have hv : validate_task_id raw = .ok (strUpper raw) := by
      unfold validate_task_id
      rw [if_pos hvalid]
    unfold TaskService.get getEntry
    rw [hv]
    dsimp only
    cases hl : assocLookup s.tasks (strUpper raw) with
    | none =>
      dsimp only
      constructor
      · intro h
        exact Except.noConfusion h
      · intro h
        exact Option.noConfusion h
    | some tk =>
      dsimp only
      constructor
      · intro h
        rw [Option.some_inj]
        exact Except.ok.inj h
      · intro h
        rw [Option.some_inj.mp h]

/-- Claim C7 witness: concrete instances of the shape equivalence, the
canonical-form law and case-insensitive lookup. -/
theorem C7_validate_task_id_witness :
    SpecIdShape "t42" ∧
    "T001" = strUpper "t001" ∧
    (TaskService.get storeC6 "t001" = TaskService.get storeC6 "T001") ∧
    (TaskService.get storeC6 "t001" = .ok taskC6a ↔
      assocLookup storeC6.tasks "T001" = some taskC6a) := by
  refine ⟨(C7_validate_task_id.1 "t42").mp ⟨"T42", by decide⟩,
    C7_validate_task_id.2.1 "t001" "T001" (by decide), ?_, ?_⟩
  · have h := (C7_validate_task_id.2.2.2.2.2.2.2.2.2.2.2.1 storeC6 "t001").1
    simpa using h
  · have h := C7_validate_task_id.2.2.2.2.2.2.2.2.2.2.2.2 storeC6 "t001"
      (by decide) taskC6a
    simpa using h

/-! ### Claim C1 -/

theorem validate_description_error {raw : String} {e : Err}
    (h : validate_description raw = .error e) : e = .DescriptionTooLong := by
  unfold validate_description at h
  by_cases h1 : MAX_DESCRIPTION_LENGTH < raw.length
  · rw [if_pos h1] at h
    exact (Except.error.inj h).symm
  · rw [if_neg h1] at h
    exact Except.noConfusion h

/-- One-task store used by the C1 counterexample and witness. -/
def storeC1 : Store := ⟨[("T001", ⟨"T001", "a", "", false, tsW⟩)], 1⟩

/-- A 1001-character description, one over the limit. -/
def longDescC1 : String := String.mk (List.replicate 1001 'x')

set_option maxRecDepth 20000 in
/-- Claim C1 counterexample: `update` given a valid new title together
with an over-long description raises `DescriptionTooLong` and performs
no persistence write, yet the stored task's title has already been
mutated from `"a"` to `"b"` — a partial update is visible in memory, so
the operation is not atomic as claimed. -/
theorem C1_counterexample :
    (TaskService.update storeC1 "T001" (some "b") (some longDescC1)).1 =
      .error .DescriptionTooLong ∧
    (TaskService.update storeC1 "T001" (some "b") (some longDescC1)).2.1 ≠
      storeC1 ∧
    (TaskService.update storeC1 "T001" (some "b")
      (some longDescC1)).2.1.tasks =
      [("T001", ⟨"T001", "b", "", false, tsW⟩)] ∧
    (TaskService.update storeC1 "T001" (some "b") (some longDescC1)).2.2 =
      false := by
  refine ⟨by decide, by decide, by decide, by decide⟩

/-- Claim C1 (amended): every mutating operation persists exactly on
success and never on failure; `add`, `delete`, `mark_complete` and
`mark_incomplete` restore nothing because a failure leaves the state
(tasks and counter) exactly as before the call; `update` leaves the
state untouched on every failure except one: when a provided title
validates but the provided description fails (`DescriptionTooLong`),
the already-validated title is visible on the stored task even though
nothing was persisted and the counter is unchanged. -/
theorem C1_atomicity :
    (∀ (s : Store) (title description : String) (now : Timestamp),
      ((TaskService.add s title description now).2.2 =
        exOk (TaskService.add s title description now).1) ∧
      (exOk (TaskService.add s title description now).1 = false →
        (TaskService.add s title description now).2.1 = s)) ∧
    (∀ (s : Store) (tid : String),
      ((TaskService.delete s tid).2.2 = exOk (TaskService.delete s tid).1) ∧
      (exOk (TaskService.delete s tid).1 = false →
        (TaskService.delete s tid).2.1 = s)) ∧
    (∀ (s : Store) (tid : String),
      ((TaskService.mark_complete s tid).2.2 = true →
        exOk (TaskService.mark_complete s tid).1 = true) ∧
      (exOk (TaskService.mark_complete s tid).1 = false →
        (TaskService.mark_complete s tid).2.1 = s ∧
          (TaskService.mark_complete s tid).2.2 = false)) ∧
    (∀ (s : Store) (tid : String),
      ((TaskService.mark_incomplete s tid).2.2 = true →
        exOk (TaskService.mark_incomplete s tid).1 = true) ∧
      (exOk (TaskService.mark_incomplete s tid).1 = false →
        (TaskService.mark_incomplete s tid).2.1 = s ∧
          (TaskService.mark_incomplete s tid).2.2 = false)) ∧
    (∀ (s : Store) (tid : String) (t d : Option String),
      ((TaskService.update s tid t d).2.2 =
        exOk (TaskService.update s tid t d).1) ∧
      ((TaskService.update s tid t d).2.1.counter = s.counter) ∧
      (∀ e, (TaskService.update s tid t d).1 = .error e →
        (t = none → (TaskService.update s tid t d).2.1 = s) ∧
        (e ≠ .DescriptionTooLong →
          (TaskService.update s tid t d).2.1 = s))) := by
  refine ⟨?_, ?_, ?_, ?_, ?_⟩
  · intro s title description now
    rcases add_cases s title description now with
      ⟨e, _, heq⟩ | ⟨t1, e, _, _, heq⟩ | ⟨t1, d1, _, _, heq⟩ <;> rw [heq]
    · exact ⟨rfl, fun _ => rfl⟩
    · exact ⟨rfl, fun _ => rfl⟩
    · exact ⟨rfl, fun h => Bool.noConfusion h⟩
  · intro s tid
    rcases delete_cases s tid with
      ⟨e, _, heq⟩ | ⟨a, _, _, heq⟩ | ⟨a, b, _, _, heq⟩ <;> rw [heq]
    · exact ⟨rfl, fun _ => rfl⟩
    · exact ⟨rfl, fun _ => rfl⟩
    · exact ⟨rfl, fun h => Bool.noConfusion h⟩
  · intro s tid
    rcases mark_complete_cases s tid with
      ⟨e, _, heq⟩ | ⟨a, b, _, _, heq⟩ | ⟨a, b, _, _, heq⟩ <;> rw [heq]
    · exact ⟨fun h => Bool.noConfusion h, fun _ => ⟨rfl, rfl⟩⟩
    · exact ⟨fun h => Bool.noConfusion h, fun h => Bool.noConfusion h⟩
    · exact ⟨fun _ => rfl, fun h => Bool.noConfusion h⟩
  · intro s tid
    rcases mark_incomplete_cases s tid with
      ⟨e, _, heq⟩ | ⟨a, b, _, _, heq⟩ | ⟨a, b, _, _, heq⟩ <;> rw [heq]
    · exact ⟨fun h => Bool.noConfusion h, fun _ => ⟨rfl, rfl⟩⟩
    · exact ⟨fun h => Bool.noConfusion h, fun h => Bool.noConfusion h⟩
    · exact ⟨fun _ => rfl, fun h => Bool.noConfusion h⟩
  · intro s tid t d
    rcases update_cases s tid t d with
      ⟨ht, hd, heq⟩ | ⟨hnn, e, hg, heq⟩ | ⟨a, b, t0, e, hg, ht, hv, heq⟩ |
      ⟨a, b, t0, t1, d0, e, hg, ht, hv, hd, hw, heq⟩ |
      ⟨a, b, t0, t1, d0, d1, hg, ht, hv, hd, hw, heq⟩ |
      ⟨a, b, t0, t1, hg, ht, hv, hd, heq⟩ |
      ⟨a, b, d0, e, hg, ht, hd, hv, heq⟩ |
      ⟨a, b, d0, d1, hg, ht, hd, hv, heq⟩ <;> rw [heq]
    · exact ⟨rfl, rfl, fun e _ => ⟨fun _ => rfl, fun _ => rfl⟩⟩
    · exact ⟨rfl, rfl, fun e _ => ⟨fun _ => rfl, fun _ => rfl⟩⟩
    · exact ⟨rfl, rfl, fun e _ => ⟨fun _ => rfl, fun _ => rfl⟩⟩
    · refine ⟨rfl, rfl, fun e' he' => ⟨fun htn => ?_, fun hne => ?_⟩⟩
      · rw [ht] at htn
        exact Option.noConfusion htn
      · obtain rfl : e = e' := Except.error.inj he'
        exact absurd (validate_description_error hw) hne
    · exact ⟨rfl, rfl, fun e' he' => Except.noConfusion he'⟩
    · exact ⟨rfl, rfl, fun e' he' => Except.noConfusion he'⟩
    · exact ⟨rfl, rfl, fun e _ => ⟨fun _ => rfl, fun _ => rfl⟩⟩
    · exact ⟨rfl, rfl, fun e' he' => Except.noConfusion he'⟩

/-- Claim C1 witness: concrete failing calls of each kind leave the
one-task store exactly as it was. -/
theorem C1_atomicity_witness :
    (TaskService.add storeC1 "" "" tsW).2.1 = storeC1 ∧
    (TaskService.delete storeC1 "T999").2.1 = storeC1 ∧
    (TaskService.update storeC1 "T001" none none).2.1 = storeC1 ∧
    (TaskService.mark_complete storeC1 "T009").2.1 = storeC1 := by
  refine ⟨(C1_atomicity.1 storeC1 "" "" tsW).2 (by decide),
    (C1_atomicity.2.1 storeC1 "T999").2 (by decide),
    ((C1_atomicity.2.2.2.2 storeC1 "T001" none none).2.2
      .NoChangesSpecified (by decide)).1 rfl,
    ((C1_atomicity.2.2.1 storeC1 "T009").2 (by decide)).1⟩

/-! ### Claim C2 -/

/-- Well-formed first record for the corrupt-file examples. -/
def recC2good : TaskRecord :=
  ⟨some "T001", some "First", some "", some false, some tsW⟩

/-- Record missing the required `title` key. -/
def recC2bad : TaskRecord :=
  ⟨some "T002", none, some "", some false, some tsW⟩

/-- File whose second record is corrupt. -/
def fileC2 : FileData := ⟨some 7, some [recC2good, recC2bad]⟩

/-- The same file without the corrupt record. -/
def fileC2b : FileData := ⟨some 7, some [recC2good]⟩

/-- Claim C2 counterexample: loading a file whose second record is
corrupt (missing `title`) does not yield the empty state: the first
record is retained (one task, counter 0), so the result is a partially
populated collection, not "exactly as if the file were absent". -/
theorem C2_counterexample :
    loadStore (some fileC2) ≠ loadStore none ∧
    (loadStore (some fileC2)).tasks.length = 1 ∧
    (loadStore (some fileC2)).counter = 0 :=
  ⟨by decide, by decide, by decide⟩

/-- Claim C2 (amended): loading swallows corruption — `loadStore` is a
total function and surfaces no error — but the resulting state is not
necessarily empty: the tasks are exactly those of the longest
well-formed prefix of records (loading aborts at the first corrupt
record), the saved counter is restored only when every record is
well-formed and is left at 0 otherwise, and absent/unparseable content
yields the fresh empty state. -/
theorem C2_load_good_records (f : FileData) (recs : List TaskRecord)
    (hf : f.tasks = some recs) :
    (loadStore (some f)).tasks = (loadTasks (recs.takeWhile recOk) []).1 ∧
    (recs.all recOk = true →
      (loadStore (some f)).counter = f.next_id_counter.getD 0) ∧
    (recs.all recOk = false → (loadStore (some f)).counter = 0) ∧
    loadStore none = emptyStore := by
  unfold loadStore
  dsimp only
  rw [hf]
  dsimp only [Option.getD]
  rw [loadTasks_takeWhile recs []]
  cases hall : recs.all recOk with
  | false =>
    dsimp only
    exact ⟨rfl, fun h => Bool.noConfusion h, fun _ => rfl, rfl⟩
  | true =>
    dsimp only
    exact ⟨rfl, fun _ => rfl, fun h => Bool.noConfusion h, rfl⟩

/-- Claim C2 witness: the corrupt file loads its good prefix with
counter 0; the fully well-formed file restores counter 7. -/
theorem C2_load_good_records_witness :
    (loadStore (some fileC2)).tasks =
      (loadTasks ([recC2good, recC2bad].takeWhile recOk) []).1 ∧
    (loadStore (some fileC2)).counter = 0 ∧
    (loadStore (some fileC2b)).counter = 7 := by
  refine ⟨(C2_load_good_records fileC2 [recC2good, recC2bad] rfl).1,
    (C2_load_good_records fileC2 [recC2good, recC2bad] rfl).2.2.1 (by decide), ?_⟩
  exact (C2_load_good_records fileC2b [recC2good] rfl).2.1 (by decide)

/-! ### Claim C10 -/

/-- Well-formed record (all five keys present). -/
def recC10good : TaskRecord :=
  ⟨some "T005", some "Hello", some "x", some true, some tsW⟩

/-- Record missing the required `created_at` key. -/
def recC10bad : TaskRecord :=
  ⟨some "T006", some "World", some "", some false, none⟩

/-- File whose second record lacks `created_at`. -/
def fileC10 : FileData := ⟨some 6, some [recC10good, recC10bad]⟩

/-- Claim C10 counterexample: a record missing `created_at` does abort
the load, but the result is not the empty state when an earlier record
already loaded — one task is retained — so "triggers the empty-state
fallback" is inaccurate for multi-record files. -/
theorem C10_counterexample :
    loadStore (some fileC10) ≠ emptyStore ∧
    (loadStore (some fileC10)).tasks.length = 1 :=
  ⟨by decide, by decide⟩

/-- Claim C10 (amended): when loading, a record lacking `description` or
`completed` is not treated as corrupt — it loads with the description
defaulting to `""` and the completion flag to `false`; a record is
rejected exactly when it lacks `id`, `title` or `created_at`;
unparseable top-level content yields the fresh state; rejection aborts
the load, keeping the records already stored and leaving the counter at
0 (an empty state only when the bad record comes first); a missing
`next_id_counter` key defaults the counter to 0. -/
theorem C10_load_defaults :
    (∀ (i t : String) (ts : Timestamp),
      loadRecord ⟨some i, some t, none, none, some ts⟩ =
        .ok (mkTask i t "" false ts)) ∧
    (∀ r : TaskRecord, recOk r = false ↔
      (r.id = none ∨ r.title = none ∨ r.created_at = none)) ∧
    loadStore none = emptyStore ∧
    (∀ recs : List TaskRecord, recs.all recOk = true →
      (loadStore (some ⟨none, some recs⟩)).counter = 0) := by
  refine ⟨fun i t ts => rfl, ?_, rfl, ?_⟩
  · intro r
    rcases r with ⟨i, t, d, c, ca⟩
    cases i <;> cases t <;> cases ca <;>
      simp [recOk, loadRecord]
  · intro recs hall
    unfold loadStore
    dsimp only [Option.getD]
    rw [loadTasks_takeWhile recs [], hall]

/-- Claim C10 witness: concrete defaulting record, concrete rejected
record, and counter defaulting on a counter-less file. -/
theorem C10_load_defaults_witness :
    loadRecord ⟨some "T009", some "t", none, none, some tsW⟩ =
      .ok (mkTask "T009" "t" "" false tsW) ∧
    recOk recC10bad = false ∧
    (loadStore (some ⟨none, some [recC10good]⟩)).counter = 0 := by
  refine ⟨C10_load_defaults.1 "T009" "t" tsW, ?_,
    C10_load_defaults.2.2.2 [recC10good] (by decide)⟩
  exact (C10_load_defaults.2.1 recC10bad).mpr (Or.inr (Or.inr rfl))

/-! ### Claim C5 -/

theorem replace_frame {s : Store} {tidv : String} {task : Task}
    {tnew : Task} (hl : assocLookup s.tasks tidv = some task)
    (hid : tnew.id = task.id) :
    ∀ k t', assocLookup (replaceTask s.tasks tidv tnew) k = some t' →
      ∃ t0, assocLookup s.tasks k = some t0 ∧ t'.id = t0.id := by
  intro k t' hk
  by_cases hkt : k = tidv
  · subst hkt
    rw [lookup_replaceTask_self s.tasks tnew hl] at hk
    obtain rfl : tnew = t' := Option.some_inj.mp hk
    exact ⟨task, hl, hid⟩
  · rw [lookup_replaceTask_ne hkt s.tasks tnew] at hk
    exact ⟨t', hk, rfl⟩

theorem replace_wf {s : Store} {tidv : String} {task tnew : Task}
    (hwf : KeysWF s) (hl : assocLookup s.tasks tidv = some task)
    (hid : tnew.id = task.id) :
    KeysWF (⟨replaceTask s.tasks tidv tnew, s.counter⟩ : Store) := by
  obtain ⟨hk, hu⟩ := hwf.2 _ (mem_of_lookup hl)
  exact keysWFList_replaceTask hwf (by rw [hid, ← hk]) (by rw [hid]; exact hu)

/-- Record whose title is empty: structurally well formed, so `_load`
accepts it although no `add`/`update` could ever have produced it. -/
def recC5 : TaskRecord := ⟨some "T001", some "", some "", some false, some tsW⟩

/-- Claim C5 counterexample: loading performs no field validation — a
well-structured file containing an empty (whitespace-only) title yields
a store whose stored title violates the 1–200-character invariant, so
the invariant does not hold after construction/loading. -/
theorem C5_counterexample :
    (loadStore (some ⟨some 1, some [recC5]⟩)).tasks.map
      (fun p => p.2.title) = [""] ∧
    ¬ FieldInv (loadStore (some ⟨some 1, some [recC5]⟩)) :=
  ⟨by decide, by decide⟩

/-- Claim C5 (amended): every stored task is keyed by its own id, ids
are unique and never change once assigned — after construction/loading
and after every operation; the title constraints (non-empty after
trimming, at most 200 characters) and the description constraint (at
most 1000 characters) are established by `add` and preserved by
`update`, `delete`, `mark_complete` and `mark_incomplete`, but are NOT
enforced at load: a structurally well-formed file can introduce stored
titles/descriptions that violate them. -/
theorem C5_invariants :
    KeysWF emptyStore ∧
    (∀ c, KeysWF (loadStore c)) ∧
    (∀ (s : Store) (title d : String) (now : Timestamp), KeysWF s →
      KeysWF (TaskService.add s title d now).2.1 ∧
      (FieldInv s → FieldInv (TaskService.add s title d now).2.1)) ∧
    (∀ (s : Store) (tid : String) (t d : Option String), KeysWF s →
      KeysWF (TaskService.update s tid t d).2.1 ∧
      (FieldInv s → FieldInv (TaskService.update s tid t d).2.1) ∧
      (∀ k t', assocLookup (TaskService.update s tid t d).2.1.tasks k =
          some t' →
        ∃ t0, assocLookup s.tasks k = some t0 ∧ t'.id = t0.id)) ∧
    (∀ (s : Store) (tid : String), KeysWF s →
      KeysWF (TaskService.delete s tid).2.1 ∧
      (FieldInv s → FieldInv (TaskService.delete s tid).2.1)) ∧
    (∀ (s : Store) (tid : String), KeysWF s →
      KeysWF (TaskService.mark_complete s tid).2.1 ∧
      (FieldInv s → FieldInv (TaskService.mark_complete s tid).2.1) ∧
      (∀ k t', assocLookup (TaskService.mark_complete s tid).2.1.tasks k =
          some t' →
        ∃ t0, assocLookup s.tasks k = some t0 ∧ t'.id = t0.id)) ∧
    (∀ (s : Store) (tid : String), KeysWF s →
      KeysWF (TaskService.mark_incomplete s tid).2.1 ∧
      (FieldInv s → FieldInv (TaskService.mark_incomplete s tid).2.1) ∧
      (∀ k t', assocLookup (TaskService.mark_incomplete s tid).2.1.tasks k =
          some t' →
        ∃ t0, assocLookup s.tasks k = some t0 ∧ t'.id = t0.id)) := by
  have hempty : KeysWF emptyStore := ⟨List.nodup_nil, by simp [emptyStore]⟩
  refine ⟨hempty, ?_, ?_, ?_, ?_, ?_, ?_⟩
  · intro c
    cases c with
    | none => exact hempty
    | some data =>
      unfold loadStore
      dsimp only
      have hwf := keysWFList_loadTasks (data.tasks.getD []) []
        ⟨List.nodup_nil, by simp⟩
      rcases h : loadTasks (data.tasks.getD []) [] with ⟨tasks, flag⟩
      rw [h] at hwf
      cases flag <;> exact hwf
  · intro s title d now hwf
    rcases add_cases s title d now with
      ⟨e, _, heq⟩ | ⟨t1, e, _, _, heq⟩ | ⟨t1, d1, hvt, hvd, heq⟩ <;> rw [heq]
    · exact ⟨hwf, fun hinv => hinv⟩
    · exact ⟨hwf, fun hinv => hinv⟩
    · constructor
      · exact keysWFList_assocSet hwf (strUpper_formatId _).symm
          (strUpper_idem _)
      · intro hinv
        refine fieldInvList_assocSet hinv ?_ ?_
        · exact titleOk_of_validate hvt
        · exact (validate_description_ok hvd).2
  · intro s tid t d hwf
    rcases update_cases s tid t d with
      ⟨ht, hd, heq⟩ | ⟨hnn, e, hg, heq⟩ | ⟨a, b, t0, e, hg, ht, hv, heq⟩ |
      ⟨a, b, t0, t1, d0, e, hg, ht, hv, hd, hw, heq⟩ |
      ⟨a, b, t0, t1, d0, d1, hg, ht, hv, hd, hw, heq⟩ |
      ⟨a, b, t0, t1, hg, ht, hv, hd, heq⟩ |
      ⟨a, b, d0, e, hg, ht, hd, hv, heq⟩ |
      ⟨a, b, d0, d1, hg, ht, hd, hv, heq⟩ <;> rw [heq]
    · exact ⟨hwf, fun hinv => hinv, fun k t' hk => ⟨t', hk, rfl⟩⟩
    · exact ⟨hwf, fun hinv => hinv, fun k t' hk => ⟨t', hk, rfl⟩⟩
    · exact ⟨hwf, fun hinv => hinv, fun k t' hk => ⟨t', hk, rfl⟩⟩
    · obtain ⟨hva, hl⟩ := getEntry_ok_iff.mp hg
      refine ⟨replace_wf hwf hl rfl, fun hinv => ?_,
        replace_frame hl rfl⟩
      refine fieldInvList_replaceTask hinv ?_ ?_
      · exact titleOk_of_validate hv
      · exact (hinv _ (mem_of_lookup hl)).2
    · obtain ⟨hva, hl⟩ := getEntry_ok_iff.mp hg
      refine ⟨replace_wf hwf hl rfl, fun hinv => ?_,
        replace_frame hl rfl⟩
      refine fieldInvList_replaceTask hinv ?_ ?_
      · exact titleOk_of_validate hv
      · exact (validate_description_ok hw).2
    · obtain ⟨hva, hl⟩ := getEntry_ok_iff.mp hg
      refine ⟨replace_wf hwf hl rfl, fun hinv => ?_,
        replace_frame hl rfl⟩
      refine fieldInvList_replaceTask hinv ?_ ?_
      · exact titleOk_of_validate hv
      · exact (hinv _ (mem_of_lookup hl)).2
    · exact ⟨hwf, fun hinv => hinv, fun k t' hk => ⟨t', hk, rfl⟩⟩
    · obtain ⟨hva, hl⟩ := getEntry_ok_iff.mp hg
      refine ⟨replace_wf hwf hl rfl, fun hinv => ?_,
        replace_frame hl rfl⟩
      refine fieldInvList_replaceTask hinv ?_ ?_
      · exact (hinv _ (mem_of_lookup hl)).1
      · exact (validate_description_ok hv).2
  · intro s tid hwf
    rcases delete_cases s tid with
      ⟨e, _, heq⟩ | ⟨a, _, _, heq⟩ | ⟨a, b, _, _, heq⟩ <;> rw [heq]
    · exact ⟨hwf, fun hinv => hinv⟩
    · exact ⟨hwf, fun hinv => hinv⟩
    · exact ⟨keysWFList_eraseP hwf, fun hinv => fieldInvList_eraseP hinv⟩
  · intro s tid hwf
    rcases mark_complete_cases s tid with
      ⟨e, _, heq⟩ | ⟨a, b, _, _, heq⟩ | ⟨a, b, hg, _, heq⟩ <;> rw [heq]
    · exact ⟨hwf, fun hinv => hinv, fun k t' hk => ⟨t', hk, rfl⟩⟩
    · exact ⟨hwf, fun hinv => hinv, fun k t' hk => ⟨t', hk, rfl⟩⟩
    · obtain ⟨hva, hl⟩ := getEntry_ok_iff.mp hg
      refine ⟨replace_wf hwf hl rfl, fun hinv => ?_,
        replace_frame hl rfl⟩
      refine fieldInvList_replaceTask hinv ?_ ?_
      · exact (hinv _ (mem_of_lookup hl)).1
      · exact (hinv _ (mem_of_lookup hl)).2
  · intro s tid hwf
    rcases mark_incomplete_cases s tid with
      ⟨e, _, heq⟩ | ⟨a, b, _, _, heq⟩ | ⟨a, b, hg, _, heq⟩ <;> rw [heq]
    · exact ⟨hwf, fun hinv => hinv, fun k t' hk => ⟨t', hk, rfl⟩⟩
    · exact ⟨hwf, fun hinv => hinv, fun k t' hk => ⟨t', hk, rfl⟩⟩
    · obtain ⟨hva, hl⟩ := getEntry_ok_iff.mp hg
      refine ⟨replace_wf hwf hl rfl, fun hinv => ?_,
        replace_frame hl rfl⟩
      refine fieldInvList_replaceTask hinv ?_ ?_
      · exact (hinv _ (mem_of_lookup hl)).1
      · exact (hinv _ (mem_of_lookup hl)).2

/-- Claim C5 witness: the invariants hold on concrete post-states of
`add`, `update` and `delete` applied to a concrete well-formed store. -/
theorem C5_invariants_witness :
    KeysWF (TaskService.add storeC6 "  New task  " "d" tsW).2.1 ∧
    FieldInv (TaskService.update storeC6 "T001" (some "Updated") none).2.1 ∧
    KeysWF (TaskService.delete storeC6 "T002").2.1 := by
  refine ⟨(C5_invariants.2.2.1 storeC6 "  New task  " "d" tsW (by decide)).1,
    (C5_invariants.2.2.2.1 storeC6 "T001" (some "Updated") none
      (by decide)).2.1 (by decide),
    (C5_invariants.2.2.2.2.1 storeC6 "T002" (by decide)).1⟩

/-! ### Claims C8 and C9: operation sequences -/

theorem applyOp_cases (s : Store) (op : Op) :
    (∃ s', applyOp s op = (s', none) ∧ s'.counter = s.counter) ∨
    (∃ s', applyOp s op = (s', some (formatId (s.counter + 1))) ∧
      s'.counter = s.counter + 1) := by
  cases op with
  | add t d now =>
    rcases add_cases s t d now with
      ⟨e, _, heq⟩ | ⟨t1, e, _, _, heq⟩ | ⟨t1, d1, _, _, heq⟩
    · left
      refine ⟨s, ?_, rfl⟩
      unfold applyOp
      dsimp only
      rw [heq]
    · left
      refine ⟨s, ?_, rfl⟩
      unfold applyOp
      dsimp only
      rw [heq]
    · right
      refine ⟨⟨assocSet s.tasks (formatId (s.counter + 1))
        (mkTask (formatId (s.counter + 1)) t1 d1 false now),
        s.counter + 1⟩, ?_, rfl⟩
      unfold applyOp
      dsimp only
      rw [heq]
      dsimp only
      rw [show (mkTask (formatId (s.counter + 1)) t1 d1 false now).id =
        formatId (s.counter + 1) from strUpper_formatId _]
  | update tid t d => exact Or.inl ⟨_, rfl, update_counter s tid t d⟩
  | delete tid => exact Or.inl ⟨_, rfl, delete_counter s tid⟩
  | mark_complete tid => exact Or.inl ⟨_, rfl, mark_complete_counter s tid⟩
  | mark_incomplete tid =>
    exact Or.inl ⟨_, rfl, mark_incomplete_counter s tid⟩

theorem runOps_adds : ∀ (ops : List Op) (s : Store),
    ∃ n, (runOps s ops).2 =
      (List.range n).map (fun i => formatId (s.counter + i + 1))
  | [], _ => ⟨0, rfl⟩
  | op :: ops, s => by
    rcases applyOp_cases s op with ⟨s', hap, hc⟩ | ⟨s', hap, hc⟩
    · obtain ⟨n, hn⟩ := runOps_adds ops s'
      refine ⟨n, ?_⟩
      unfold runOps
      rw [hap]
      dsimp only
      rw [hn, hc]
    · obtain ⟨n, hn⟩ := runOps_adds ops s'
      refine ⟨n + 1, ?_⟩
      unfold runOps
      rw [hap]
      dsimp only
      rw [hn, hc, List.range_succ_eq_map, List.map_cons, List.map_map,
        Nat.add_zero]
      congr 1
      refine List.map_congr_left ?_
      intro i _
      show formatId (s.counter + 1 + i + 1) = formatId (s.counter + (i + 1) + 1)
      congr 1
      omega

theorem no_reuse (tid : String) : ∀ (ops : List Op) (s : Store),
    (∀ m, s.counter < m → formatId m ≠ tid) → tid ∉ (runOps s ops).2
  | [], s, _ => by simp [runOps]
  | op :: ops, s, h => by
    rcases applyOp_cases s op with ⟨s', hap, hc⟩ | ⟨s', hap, hc⟩
    · unfold runOps
      rw [hap]
      dsimp only
      exact no_reuse tid ops s' (by rw [hc]; exact h)
    · unfold runOps
      rw [hap]
      dsimp only
      intro hmem
      rcases List.mem_cons.mp hmem with heq | hmem'
      · exact h (s.counter + 1) (Nat.lt_succ_self _) heq.symm
      · refine absurd hmem' (no_reuse tid ops s' fun m hm => h m ?_)
        rw [hc] at hm
        omega

/-- Claim C8: on a fresh store (counter 0), the ids handed out by the
successful `add`s of ANY call sequence — failures, deletions, updates
and completion toggles interleaved arbitrarily — are exactly
`formatId 1, formatId 2, …` in order, i.e. the n-th successful add is
assigned `T` + n zero-padded to at least 3 digits; `formatId` never
truncates (its numeral is recoverable: `idNum (formatId n) = n`), and
concretely the first adds yield `T001`, `T002`, `T003` and the 1000th
yields `T1000`. -/
theorem C8_sequential_ids :
    (∀ ops : List Op, ∃ n, (runOps emptyStore ops).2 =
      (List.range n).map (fun i => formatId (i + 1))) ∧
    (∀ n, idNum (formatId n) = n) ∧
    formatId 1 = "T001" ∧ formatId 2 = "T002" ∧ formatId 3 = "T003" ∧
    formatId 1000 = "T1000" := by
  refine ⟨?_, idNum_formatId, by decide, by decide, by decide, by decide⟩
  intro ops
  obtain ⟨n, hn⟩ := runOps_adds ops emptyStore
  refine ⟨n, ?_⟩
  rw [hn]
  refine List.map_congr_left ?_
  intro i _
  show formatId (0 + i + 1) = formatId (i + 1)
  congr 1
  omega

/-- Tasks of the three-task store for the C9 witness. -/
def taskC9a : Task := ⟨"T001", "First", "", false, tsW⟩

/-- Second task (the one deleted). -/
def taskC9b : Task := ⟨"T002", "Second", "", true, tsW⟩

/-- Third task. -/
def taskC9c : Task := ⟨"T003", "Third", "", false, tsW⟩

/-- Three-task store with counter 3, as after three `add`s. -/
def storeC9 : Store :=
  ⟨[("T001", taskC9a), ("T002", taskC9b), ("T003", taskC9c)], 3⟩

/-- Claim C9: on a store with unique keys whose allocator cannot collide
with a stored id (true of every state reachable from a fresh store, and
preserved by save/load), `delete` of an existing task removes exactly
that task: it returns the removed task, persists, leaves the counter
unchanged, decreases `count` by exactly 1, makes the deleted id
unretrievable while every other id still retrieves its unchanged task
(no renumbering), and no sequence of subsequent operations ever hands
the deleted id out again through `add`. -/
theorem C9_delete_frame (s : Store) (raw tid : String) (task : Task)
    (hnd : (s.tasks.map Prod.fst).Nodup) (halloc : AllocInv s)
    (hv : validate_task_id raw = .ok tid)
    (hl : assocLookup s.tasks tid = some task) :
    (TaskService.delete s raw).1 = .ok task ∧
    (TaskService.delete s raw).2.2 = true ∧
    (TaskService.delete s raw).2.1.counter = s.counter ∧
    TaskService.count (TaskService.delete s raw).2.1 =
      TaskService.count s - 1 ∧
    assocLookup (TaskService.delete s raw).2.1.tasks tid = none ∧
    (∀ k, k ≠ tid → assocLookup (TaskService.delete s raw).2.1.tasks k =
      assocLookup s.tasks k) ∧
    (∀ ops : List Op, tid ∉ (runOps (TaskService.delete s raw).2.1 ops).2) := by
  rcases delete_cases s raw with
    ⟨e, hv', heq⟩ | ⟨a, hv', hl', heq⟩ | ⟨a, b, hv', hl', heq⟩
  · rw [hv] at hv'
    exact Except.noConfusion hv'
  · rw [hv] at hv'
    have ha : a = tid := (Except.ok.inj hv').symm
    rw [ha, hl] at hl'
    exact Option.noConfusion hl'
  · rw [hv] at hv'
    have ha : a = tid := (Except.ok.inj hv').symm
    rw [ha, hl] at hl'
    have hb : task = b := Option.some_inj.mp hl'
    rw [ha, ← hb] at heq
    rw [heq]
    refine ⟨rfl, rfl, rfl, ?_, ?_, ?_, ?_⟩
    · show (s.tasks.eraseP (fun p => decide (p.1 = tid))).length =
        s.tasks.length - 1
      exact List.length_eraseP_of_mem (mem_of_lookup hl) (by simp)
    · exact lookup_eraseP_self s.tasks hnd
    · intro k hk
      exact lookup_eraseP_ne hk s.tasks
    · intro ops
      refine no_reuse tid ops _ ?_
      intro m hm
      exact halloc (tid, task) (mem_of_lookup hl) m hm

/-- Claim C9 witness: deleting `T002` from a concrete three-task store
returns it, leaves `T001` and `T003` retrievable unchanged, reduces the
count from 3 to 2, and a subsequent `add` does not reuse `T002`. -/
theorem C9_delete_frame_witness :
    (TaskService.delete storeC9 "T002").1 = .ok taskC9b ∧
    TaskService.count (TaskService.delete storeC9 "T002").2.1 = 2 ∧
    assocLookup (TaskService.delete storeC9 "T002").2.1.tasks "T001" =
      some taskC9a ∧
    assocLookup (TaskService.delete storeC9 "T002").2.1.tasks "T003" =
      some taskC9c ∧
    "T002" ∉ (runOps (TaskService.delete storeC9 "T002").2.1
      [Op.add "New" "" tsW]).2 := by
  have h := C9_delete_frame storeC9 "T002" "T002" taskC9b (by decide)
    (allocInv_of_idNum (by decide)) (by decide) (by decide)
  refine ⟨h.1, ?_, ?_, ?_, h.2.2.2.2.2.2 [Op.add "New" "" tsW]⟩
  · rw [h.2.2.2.1]
    decide
  · rw [h.2.2.2.2.2.1 "T001" (by decide)]
    decide
  · rw [h.2.2.2.2.2.1 "T003" (by decide)]
    decide

end Todo